import Mathlib

/-!
Verification development for the genealogy entity store and reconciliation
engine (`src/backend/genealogy_ai/storage/sqlite.py` and
`src/backend/genealogy_ai/agents/reconcile_people.py`).

The SQLite tables are embedded as lists of records inside a `DB` state;
SQLAlchemy's autoincrement primary keys are modelled by per-table `next_*_id`
counters.  Each public database method becomes a pure function on `DB`.
Methods that run inside a single session with one final `session.commit()`
take a `commitOk` flag: when it is `false` the final commit raises and the
session rolls back, leaving only the durable effects of any *separate*
sessions opened by nested calls (this matters for `merge_people`, whose
`self.add_name` calls commit in their own sessions).  Wall-clock
`created_at` columns are omitted.
-/

namespace GenDb

/-- `documents` table row (`Document` in sqlite.py). `created_at` omitted. -/
structure Document where
  id : Nat
  source : String
  page : Option Nat
  ocr_text : Option String
  document_type : Option String
deriving DecidableEq

/-- `people` table row (`Person` in sqlite.py). `created_at` omitted. -/
structure Person where
  id : Nat
  primary_name : String
  notes : Option String
  confidence : Option Rat
  source_document_id : Option Nat
  family_name : Option String
  family_side : Option String
deriving DecidableEq

/-- `names` table row (`Name` in sqlite.py): an alternate name owned by one person. -/
structure Name where
  id : Nat
  person_id : Nat
  name : String
  name_type : Option String
  confidence : Option Rat
deriving DecidableEq

/-- `events` table row (`Event` in sqlite.py). -/
structure Event where
  id : Nat
  person_id : Nat
  event_type : String
  date : Option String
  place : Option String
  description : Option String
  confidence : Option Rat
  source_document_id : Option Nat
deriving DecidableEq

/-- `relationships` table row (`Relationship` in sqlite.py). -/
structure Relationship where
  id : Nat
  source_person_id : Nat
  target_person_id : Nat
  relationship_type : String
  confidence : Option Rat
  notes : Option String
  source_document_id : Option Nat
deriving DecidableEq

/-- `person_documents` table row (`PersonDocument` in sqlite.py). `created_at` omitted. -/
structure PersonDocument where
  id : Nat
  person_id : Nat
  document_id : Nat
  link_type : String
  notes : Option String
deriving DecidableEq

/-- The whole SQLite database. Lists are in insertion (rowid) order, matching
the order unordered SQLAlchemy queries return rows in; the `next_*_id`
counters model autoincrement primary-key allocation. -/
structure DB where
  documents : List Document
  people : List Person
  names : List Name
  events : List Event
  relationships : List Relationship
  person_documents : List PersonDocument
  next_person_id : Nat
  next_name_id : Nat
  next_event_id : Nat
  next_relationship_id : Nat
  next_person_document_id : Nat
deriving DecidableEq

/-- Error taxonomy for a database call.  `not_found` is the
`ValueError("One or both people not found")` raised by `merge_people`
(called `NotFoundError` in the design spec); `storage` is an underlying
commit/transaction failure. -/
inductive DbError where
  | not_found
  | storage
deriving DecidableEq

/-- Outcome of one database method: normal return or a raised error. -/
inductive OpRes where
  | ok
  | err (e : DbError)
deriving DecidableEq

/-- Result of one database method call: the outcome together with the durable
database state observable after the call returns or raises. -/
structure OpResult where
  res : OpRes
  db : DB
deriving DecidableEq

/-- Python truthiness of an optional string column: `None` and `""` are falsy. -/
def truthy : Option String → Bool
  | none => false
  | some s => !(s == "")

/-- `str.lower()` as used throughout the source, modelled as per-character
ASCII lowering (locale/Unicode-specific lowering is not modelled).  Defined
by structural recursion over the characters so that it evaluates in the
kernel. -/
def lowerStr (s : String) : String :=
  ⟨s.data.map Char.toLower⟩

/-- Python truthiness of an optional integer id: `None` and `0` are falsy
(`if not person_id:` in `store_extraction`). -/
def idTruthy : Option Nat → Option Nat
  | none => none
  | some n => if n == 0 then none else some n

/-- `Column.in_(ids)` membership for a nullable integer column: SQL `NULL IN (...)`
is not true, so a `none` value never matches. -/
def optMember (o : Option Nat) (ids : List Nat) : Bool :=
  match o with
  | none => false
  | some i => ids.contains i

/-- `session.query(Person).filter(Person.id == pid).first()`. -/
def find_person (db : DB) (pid : Nat) : Option Person :=
  db.people.find? (fun p => p.id == pid)

/-- `GenealogyDatabase.add_person`: inserts a person row and commits.
Returns the updated database and the created row (whose id was assigned). -/
def add_person (db : DB) (primary_name : String) (notes : Option String)
    (confidence : Option Rat) (source_document_id : Option Nat)
    (family_name : Option String) (family_side : Option String) : DB × Person :=
  let person : Person :=
    { id := db.next_person_id, primary_name := primary_name, notes := notes,
      confidence := confidence, source_document_id := source_document_id,
      family_name := family_name, family_side := family_side }
  ({ db with people := db.people ++ [person],
             next_person_id := db.next_person_id + 1 }, person)

/-- `GenealogyDatabase.add_name`: inserts an alternate-name row and commits.
This always runs in its own session, so its effect is durable immediately. -/
def add_name (db : DB) (person_id : Nat) (name : String)
    (name_type : Option String) (confidence : Option Rat) : DB :=
  { db with
    names := db.names ++
      [{ id := db.next_name_id, person_id := person_id, name := name,
         name_type := name_type, confidence := confidence }],
    next_name_id := db.next_name_id + 1 }

/-- `GenealogyDatabase.add_event`: inserts an event row and commits. -/
def add_event (db : DB) (person_id : Nat) (event_type : String)
    (date : Option String) (place : Option String) (description : Option String)
    (confidence : Option Rat) (source_document_id : Option Nat) : DB :=
  { db with
    events := db.events ++
      [{ id := db.next_event_id, person_id := person_id, event_type := event_type,
         date := date, place := place, description := description,
         confidence := confidence, source_document_id := source_document_id }],
    next_event_id := db.next_event_id + 1 }

/-- `GenealogyDatabase.add_relationship`: inserts a relationship row and commits. -/
def add_relationship (db : DB) (source_person_id target_person_id : Nat)
    (relationship_type : String) (confidence : Option Rat)
    (notes : Option String) (source_document_id : Option Nat) : DB :=
  { db with
    relationships := db.relationships ++
      [{ id := db.next_relationship_id, source_person_id := source_person_id,
         target_person_id := target_person_id, relationship_type := relationship_type,
         confidence := confidence, notes := notes,
         source_document_id := source_document_id }],
    next_relationship_id := db.next_relationship_id + 1 }

/-- `GenealogyDatabase.add_person_document_link`: unconditionally inserts a
`person_documents` row and commits.  The source performs no uniqueness check
and the table declares no unique constraint. -/
def add_person_document_link (db : DB) (person_id document_id : Nat)
    (link_type : String) (notes : Option String) : DB :=
  { db with
    person_documents := db.person_documents ++
      [{ id := db.next_person_document_id, person_id := person_id,
         document_id := document_id, link_type := link_type, notes := notes }],
    next_person_document_id := db.next_person_document_id + 1 }

/-- Naive substring test on character lists, used to model SQL
`ilike "%needle%"` (wildcard characters inside the needle are not modelled). -/
def containsSub (needle : List Char) : List Char → Bool
  | [] => needle.isEmpty
  | c :: t => needle.isPrefixOf (c :: t) || containsSub needle t

/-- Case-insensitive substring match, modelling `Column.ilike(f"%{name}%")`. -/
def containsCI (haystack needle : String) : Bool :=
  containsSub (lowerStr needle).data (lowerStr haystack).data

/-- `GenealogyDatabase.get_person_by_name`: people whose primary name matches
case-insensitively, then owners of matching alternate names appended if not
already present (the Python `not in` compares ORM identity, i.e. row id).
A `Name` row whose owner is missing contributes nothing (in SQLAlchemy such a
row always resolves to its loaded owner). -/
def get_person_by_name (db : DB) (name : String) : List Person :=
  let people := db.people.filter (fun p => containsCI p.primary_name name)
  let name_matches := db.names.filter (fun n => containsCI n.name name)
  name_matches.foldl
    (fun acc n =>
      match db.people.find? (fun p => p.id == n.person_id) with
      | some p => if acc.any (fun q => q.id == p.id) then acc else acc ++ [p]
      | none => acc)
    people

/-- The document-link collapse rule of `merge_people`: a link owned by the
merged person is dropped when the kept person already linked that document id
(computed before the loop, regardless of link type), otherwise re-pointed;
other rows pass through. -/
def collapseLink (keep_id merge_id : Nat) (existing_doc_ids : List Nat)
    (l : PersonDocument) : Option PersonDocument :=
  if l.person_id == merge_id then
    if existing_doc_ids.contains l.document_id then none
    else some { l with person_id := keep_id }
  else some l

/-- The two relationship re-pointing updates of `merge_people`: first every
`source_person_id = merge_id` becomes `keep_id`, then every
`target_person_id = merge_id` becomes `keep_id` (each endpoint independently). -/
def remapRel (keep_id merge_id : Nat) (r : Relationship) : Relationship :=
  let r1 :=
    if r.source_person_id == merge_id then { r with source_person_id := keep_id } else r
  if r1.target_person_id == merge_id then { r1 with target_person_id := keep_id } else r1

/-- The alternate-name loop of `merge_people`: for each name owned by the
merged person (in rowid order), `self.add_name(keep_id, name.name)` unless a
case-insensitively equal name is in `existing_names`.  Each `add_name` call
commits in its own session; `existing_names` is rebuilt every iteration from
the ORM collection `keep_person.names`, which was loaded once and is never
refreshed, so it is a constant snapshot of the pre-merge rows. -/
def mergeNameLoop (keep_id : Nat) (existing_names : List String)
    (l : List Name) (db : DB) : DB :=
  l.foldl
    (fun d n =>
      if existing_names.contains (lowerStr n.name) then d
      else add_name d keep_id n.name none none)
    db

/-- The name rows `mergeNameLoop` appends, given the next free name id. -/
def mergeNewRows (keep_id : Nat) (existing_names : List String) (start : Nat) :
    List Name → List Name
  | [] => []
  | n :: ns =>
    if existing_names.contains (lowerStr n.name) then
      mergeNewRows keep_id existing_names start ns
    else
      { id := start, person_id := keep_id, name := n.name,
        name_type := none, confidence := none } ::
        mergeNewRows keep_id existing_names (start + 1) ns

/-- `GenealogyDatabase.merge_people(keep_id, merge_id)`.

The whole body runs in one session except the `self.add_name(keep_id, ...)`
calls, which open their own sessions and commit immediately.  The ORM
collections `keep_person.names` / `merge_person.names` are loaded once at the
start of the name loop and never refreshed, so the duplicate check always
consults the pre-merge name rows.  The bulk `query(...).update(...)` calls
execute inside the merge session's transaction before `merge_person` is
flushed, so the delete-orphan cascade on the merged person removes its name
rows (and any event rows still carrying `merge_id`, which only happens when
`keep_id = merge_id`).  When the final commit fails the session rolls back,
leaving only the name rows committed by `add_name`. -/
def merge_people (db : DB) (keep_id merge_id : Nat) (commitOk : Bool) : OpResult :=
  match find_person db keep_id, find_person db merge_id with
  | some keep_person, some merge_person =>
    -- family transfer, buffered in the merge session until commit
    let keep_updated : Person :=
      if !truthy keep_person.family_name && truthy merge_person.family_name then
        { keep_person with family_name := merge_person.family_name,
                           family_side := merge_person.family_side }
      else keep_person
    let existing_names : List String :=
      (lowerStr keep_person.primary_name) ::
        (db.names.filter (fun n => n.person_id == keep_id)).map (fun n => (lowerStr n.name))
    let merge_names : List Name := db.names.filter (fun n => n.person_id == merge_id)
    -- durable effect of the separately committed add_name calls
    let db1 : DB := mergeNameLoop keep_id existing_names merge_names db
    if commitOk then
      let existing_doc_ids : List Nat :=
        (db1.person_documents.filter (fun l => l.person_id == keep_id)).map
          (fun l => l.document_id)
      { res := OpRes.ok,
        db :=
          { db1 with
            people :=
              (db1.people.map (fun p => if p.id == keep_id then keep_updated else p)).filter
                (fun p => p.id != merge_id),
            names := db1.names.filter (fun n => n.person_id != merge_id),
            events :=
              (db1.events.map (fun e =>
                if e.person_id == merge_id then { e with person_id := keep_id } else e)).filter
                (fun e => e.person_id != merge_id),
            relationships := db1.relationships.map (remapRel keep_id merge_id),
            person_documents := db1.person_documents.filterMap
              (collapseLink keep_id merge_id existing_doc_ids) } }
    else { res := OpRes.err DbError.storage, db := db1 }
  | _, _ => { res := OpRes.err DbError.not_found, db := db }

/-- `GenealogyDatabase.delete_document(document_id)`.

All statements run in one session; the bulk deletes execute in the session's
transaction and the person deletions cascade to owned names and events, so a
failing final commit rolls everything back.  When the id resolves to no
document the method commits an empty transaction and returns (modelled as
always succeeding, since there is nothing to flush). -/
def delete_document (db : DB) (document_id : Nat) (commitOk : Bool) : OpResult :=
  match db.documents.find? (fun d => d.id == document_id) with
  | none => { res := OpRes.ok, db := db }
  | some doc =>
    let source_path := doc.source
    let all_page_ids : List Nat :=
      (db.documents.filter (fun d => d.source == source_path)).map (fun d => d.id)
    let deleted_people_ids : List Nat :=
      (db.people.filter (fun p => optMember p.source_document_id all_page_ids)).map
        (fun p => p.id)
    if commitOk then
      { res := OpRes.ok,
        db :=
          { db with
            documents := db.documents.filter (fun d => d.source != source_path),
            people :=
              db.people.filter (fun p => !(optMember p.source_document_id all_page_ids)),
            names := db.names.filter (fun n => !(deleted_people_ids.contains n.person_id)),
            events := db.events.filter (fun e =>
              !(optMember e.source_document_id all_page_ids) &&
                !(deleted_people_ids.contains e.person_id)),
            relationships := db.relationships.filter (fun r =>
              !(optMember r.source_document_id all_page_ids)) } }
    else { res := OpRes.err DbError.storage, db := db }

/-! ### store_extraction (schemas from `schemas/extraction.py`) -/

/-- `PersonExtraction` pydantic schema. -/
structure PersonExtraction where
  primary_name : String
  name_variants : List String
  confidence : Rat
  notes : Option String
deriving DecidableEq

/-- `EventExtraction` pydantic schema. -/
structure EventExtraction where
  person_name : String
  event_type : String
  date : Option String
  place : Option String
  confidence : Rat
  notes : Option String
deriving DecidableEq

/-- `RelationshipExtraction` pydantic schema. -/
structure RelationshipExtraction where
  person1 : String
  person2 : String
  relationship_type : String
  confidence : Rat
  notes : Option String
deriving DecidableEq

/-- `ExtractionResult` pydantic schema. -/
structure ExtractionResult where
  people : List PersonExtraction
  events : List EventExtraction
  relationships : List RelationshipExtraction
deriving DecidableEq

/-- The `name_to_person_id` dict of `store_extraction`: assignment prepends a
binding (shadowing any older one), `.get` takes the newest binding. -/
def NameMap := List (String × Nat)

/-- `name_to_person_id.get(key)`. -/
def mapGet (m : NameMap) (key : String) : Option Nat :=
  (List.find? (fun kv => kv.1 == key) m).map (fun kv => kv.2)

/-- First pass of `store_extraction`: create the person (the
`get_person_by_name` pre-check's result is unused — "create anyway"), record
the name mapping, link the person to the document, add name variants. -/
def storePersonStep (document_id : Nat) (family_name family_side : Option String)
    (st : DB × NameMap) (pd : PersonExtraction) : DB × NameMap :=
  let db := st.1
  let m := st.2
  let created := add_person db pd.primary_name pd.notes (some pd.confidence)
    (some document_id) family_name family_side
  let db1 := created.1
  let person := created.2
  let m1 : NameMap := (pd.primary_name, person.id) :: m
  let db2 := add_person_document_link db1 person.id document_id "extracted_from" none
  let db3 := pd.name_variants.foldl (fun d v => add_name d person.id v none none) db2
  (db3, m1)

/-- Second pass of `store_extraction`: resolve the event's person by the name
map, then by name search, else create it (with confidence 0.7 and a document
link, recording the mapping); then add the event. -/
def storeEventStep (document_id : Nat) (family_name family_side : Option String)
    (st : DB × NameMap) (ed : EventExtraction) : DB × NameMap :=
  let db := st.1
  let m := st.2
  match idTruthy (mapGet m ed.person_name) with
  | some pid =>
    (add_event db pid ed.event_type ed.date ed.place ed.notes (some ed.confidence)
      (some document_id), m)
  | none =>
    match get_person_by_name db ed.person_name with
    | p :: _ =>
      (add_event db p.id ed.event_type ed.date ed.place ed.notes (some ed.confidence)
        (some document_id), m)
    | [] =>
      let created := add_person db ed.person_name none (some (7/10 : Rat))
        (some document_id) family_name family_side
      let db1 := created.1
      let person := created.2
      let m1 : NameMap := (ed.person_name, person.id) :: m
      let db2 := add_person_document_link db1 person.id document_id "extracted_from" none
      (add_event db2 person.id ed.event_type ed.date ed.place ed.notes
        (some ed.confidence) (some document_id), m1)

/-- Person resolution in the third pass of `store_extraction`: the name map
is consulted but never updated there; a freshly created person gets a
document link. -/
def resolveRelPerson (document_id : Nat) (family_name family_side : Option String)
    (db : DB) (m : NameMap) (pname : String) : DB × Nat :=
  match idTruthy (mapGet m pname) with
  | some pid => (db, pid)
  | none =>
    match get_person_by_name db pname with
    | p :: _ => (db, p.id)
    | [] =>
      let created := add_person db pname none (some (7/10 : Rat)) (some document_id)
        family_name family_side
      (add_person_document_link created.1 created.2.id document_id "extracted_from" none,
        created.2.id)

/-- Third pass of `store_extraction`: resolve both endpoints, then add the
relationship. -/
def storeRelStep (document_id : Nat) (family_name family_side : Option String)
    (st : DB × NameMap) (rd : RelationshipExtraction) : DB × NameMap :=
  let r1 := resolveRelPerson document_id family_name family_side st.1 st.2 rd.person1
  let r2 := resolveRelPerson document_id family_name family_side r1.1 st.2 rd.person2
  (add_relationship r2.1 r1.2 r2.2 rd.relationship_type (some rd.confidence) rd.notes
    (some document_id), st.2)

/-- `GenealogyDatabase.store_extraction`: three passes over the extraction
result.  Every nested `add_*` call commits in its own session, so the state
threads straight through; the returned counts dict is not modelled. -/
def store_extraction (db : DB) (er : ExtractionResult) (document_id : Nat)
    (family_name family_side : Option String) : DB :=
  let st1 := er.people.foldl (storePersonStep document_id family_name family_side)
    (db, ([] : NameMap))
  let st2 := er.events.foldl (storeEventStep document_id family_name family_side) st1
  let st3 := er.relationships.foldl (storeRelStep document_id family_name family_side) st2
  st3.1

/-! ### Reconciliation agent (`agents/reconcile_people.py`) -/

/-- Longest-common-subsequence length with explicit fuel (the fuel is always
at least the total length, so it never runs out); structural recursion on the
fuel keeps the definition kernel-reducible. -/
def lcsAux : Nat → List Char → List Char → Nat
  | 0, _, _ => 0
  | _ + 1, [], _ => 0
  | _ + 1, _ :: _, [] => 0
  | fuel + 1, a :: as, b :: bs =>
    if a = b then lcsAux fuel as bs + 1
    else max (lcsAux fuel (a :: as) bs) (lcsAux fuel as (b :: bs))

/-- Longest-common-subsequence length of two character lists. -/
def lcs (xs ys : List Char) : Nat :=
  lcsAux (xs.length + ys.length) xs ys

/-- Model of `rapidfuzz.fuzz.ratio`: normalized indel similarity as a
percentage, `100 * (1 - dist/(len1+len2))` where `dist` is the Levenshtein
distance with substitution weight 2, i.e. `100 * 2*lcs/(len1+len2)`;
two empty strings score 100. -/
def fuzzRatio (s1 s2 : String) : Rat :=
  let n : Nat := s1.length + s2.length
  if n = 0 then 100 else (100 * (2 * lcs s1.data s2.data) : Rat) / (n : Rat)

/-- The tunable parameters of `ReconciliationAgent` (the `db` handle is passed
to each operation explicitly). Defaults: `name_threshold=0.85`,
`min_confidence=0.60`. -/
structure ReconciliationAgent where
  name_threshold : Rat
  min_confidence : Rat
deriving DecidableEq

/-- `ReconciliationAgent._get_event`: first event of the given type owned by
the person, in rowid order. -/
def get_event (db : DB) (person_id : Nat) (event_type : String) : Option Event :=
  db.events.find? (fun e => e.person_id == person_id && e.event_type == event_type)

/-- The lowered name set `{person.primary_name.lower()} ∪ {n.name.lower()}`
built by `_compare_people` for each person.  The Python set is modelled as a
list (duplicates do not change the maximum taken over it). -/
def nameSet (db : DB) (p : Person) : List String :=
  (lowerStr p.primary_name) ::
    (db.names.filter (fun n => n.person_id == p.id)).map (fun n => (lowerStr n.name))

/-- The name gate of `ReconciliationAgent._compare_people` (lines 97-125):
`some s` with the qualifying score when the primary names or the
alternate-name cross product reach the threshold, `none` otherwise. -/
def nameGate (ag : ReconciliationAgent) (db : DB) (p1 p2 : Person) : Option Rat :=
  let name_score := fuzzRatio (lowerStr p1.primary_name) (lowerStr p2.primary_name) / 100
  if ag.name_threshold ≤ name_score then some name_score
  else
    let person1_names : List String := nameSet db p1
    let person2_names : List String := nameSet db p2
    let max_variant_score : Rat := person1_names.foldl
      (fun acc n1 => person2_names.foldl
        (fun acc2 n2 => max acc2 (fuzzRatio n1 n2 / 100)) acc)
      0
    if ag.name_threshold ≤ max_variant_score then some max_variant_score else none

/-- Birth-date signal of `_compare_people`: `[1]` for identical truthy dates,
`[0]` (the veto) for differing truthy dates, `[]` otherwise. -/
def birthDateScores (db : DB) (p1 p2 : Person) : List Rat :=
  match get_event db p1.id "birth", get_event db p2.id "birth" with
  | some e1, some e2 =>
    match e1.date, e2.date with
    | some d1, some d2 =>
      if d1 ≠ "" ∧ d2 ≠ "" then (if d1 = d2 then [1] else [0]) else []
    | _, _ => []
  | _, _ => []

/-- Birth-place signal of `_compare_people`: the place similarity weighted by
0.8 when it reaches 0.8, else nothing. -/
def birthPlaceScores (db : DB) (p1 p2 : Person) : List Rat :=
  match get_event db p1.id "birth", get_event db p2.id "birth" with
  | some e1, some e2 =>
    match e1.place, e2.place with
    | some pl1, some pl2 =>
      if pl1 ≠ "" ∧ pl2 ≠ "" then
        let place_score := fuzzRatio (lowerStr pl1) (lowerStr pl2) / 100
        if (8 / 10 : Rat) ≤ place_score then [place_score * (8 / 10)] else []
      else []
    | _, _ => []
  | _, _ => []

/-- Death-date signal of `_compare_people`: `[1]` for identical truthy death
dates, `[]` otherwise (differing death dates add nothing). -/
def deathDateScores (db : DB) (p1 p2 : Person) : List Rat :=
  match get_event db p1.id "death", get_event db p2.id "death" with
  | some e1, some e2 =>
    match e1.date, e2.date with
    | some d1, some d2 =>
      if d1 ≠ "" ∧ d2 ≠ "" then (if d1 = d2 then [1] else []) else []
    | _, _ => []
  | _, _ => []

/-- `DuplicateCandidate` dataclass (its display-only `reasons` strings are
not modelled). -/
structure DuplicateCandidate where
  person1_id : Nat
  person1_name : String
  person2_id : Nat
  person2_name : String
  confidence : Rat
deriving DecidableEq

/-- `ReconciliationAgent._compare_people`: the name gate is a hard
prerequisite; afterwards the birth-date, birth-place and death-date signals
are appended and the confidence is the arithmetic mean of all collected
scores.  (The `if not scores` guard of the source is unreachable because the
gate score is always collected.) -/
def compare_people (ag : ReconciliationAgent) (db : DB) (p1 p2 : Person) :
    Option DuplicateCandidate :=
  match nameGate ag db p1 p2 with
  | none => none
  | some s0 =>
    let scores : List Rat :=
      s0 :: (birthDateScores db p1 p2 ++ birthPlaceScores db p1 p2 ++
        deathDateScores db p1 p2)
    if scores.isEmpty then none
    else
      some
        { person1_id := p1.id, person1_name := p1.primary_name,
          person2_id := p2.id, person2_name := p2.primary_name,
          confidence := scores.sum / (scores.length : Rat) }

/-- The ordered pairs `(people[i], people[j])` with `i < j`, as enumerated by
the nested loops of `find_duplicates`. -/
def allPairs {α : Type} : List α → List (α × α)
  | [] => []
  | x :: xs => xs.map (fun y => (x, y)) ++ allPairs xs

/-- Stable insertion of a candidate into a confidence-descending list:
an element is placed before the first strictly less confident one, after
equally confident earlier elements (Python `list.sort` is stable). -/
def insertDesc (c : DuplicateCandidate) : List DuplicateCandidate → List DuplicateCandidate
  | [] => [c]
  | x :: xs =>
    if x.confidence < c.confidence then c :: x :: xs else x :: insertDesc c xs

/-- Stable sort by confidence, highest first
(`candidates.sort(key=lambda x: x.confidence, reverse=True)`). -/
def sortDesc : List DuplicateCandidate → List DuplicateCandidate
  | [] => []
  | x :: xs => insertDesc x (sortDesc xs)

/-- `ReconciliationAgent.find_duplicates`: compare every unordered pair of
people, keep candidates reaching `min_confidence`, sort by confidence
descending. -/
def find_duplicates (ag : ReconciliationAgent) (db : DB) : List DuplicateCandidate :=
  let candidates := (allPairs db.people).filterMap
    (fun pq =>
      match compare_people ag db pq.1 pq.2 with
      | some c => if ag.min_confidence ≤ c.confidence then some c else none
      | none => none)
  sortDesc candidates

/-! ### Invariants and concrete example states -/

/-- The spec's no-duplicate-edge invariant: at most one `person_documents`
row per `(person_id, document_id, link_type)` triple. -/
def linkTripleUnique (db : DB) : Prop :=
  List.Pairwise
    (fun a b =>
      ¬(a.person_id = b.person_id ∧ a.document_id = b.document_id ∧
        a.link_type = b.link_type))
    db.person_documents

instance (db : DB) : Decidable (linkTripleUnique db) := by
  unfold linkTripleUnique; infer_instance

/-- Well-formedness of id allocation: every `person_documents` row references
a person id below the autoincrement counter.  True in every state the store
itself produces, since person ids are handed out from the counter. -/
def linkPersonIdsBounded (db : DB) : Prop :=
  ∀ l ∈ db.person_documents, l.person_id < db.next_person_id

instance (db : DB) : Decidable (linkPersonIdsBounded db) := by
  unfold linkPersonIdsBounded; infer_instance

/-- Well-formedness of id allocation: every `names` row id is below the
autoincrement counter. -/
def nameIdsBounded (db : DB) : Prop :=
  ∀ n ∈ db.names, n.id < db.next_name_id

instance (db : DB) : Decidable (nameIdsBounded db) := by
  unfold nameIdsBounded; infer_instance

/-- Example state: document 1; person 1 "ann" and person 2 "bob" (extracted
from it); "bob" owns the case-insensitively equal alternate names "Jon" and
"jon", a 1900 birth event, a spouse relationship with "ann", and two links
(different link types) to the same document 7. -/
def exDb : DB :=
  { documents := [{ id := 1, source := "a.jpg", page := some 1, ocr_text := none,
                    document_type := none }],
    people :=
      [{ id := 1, primary_name := "ann", notes := none, confidence := none,
         source_document_id := some 1, family_name := none, family_side := none },
       { id := 2, primary_name := "bob", notes := none, confidence := none,
         source_document_id := some 1, family_name := some "scheldt",
         family_side := some "maternal" }],
    names := [{ id := 1, person_id := 2, name := "Jon", name_type := none, confidence := none },
              { id := 2, person_id := 2, name := "jon", name_type := none, confidence := none }],
    events := [{ id := 1, person_id := 2, event_type := "birth", date := some "1900",
                 place := none, description := none, confidence := none,
                 source_document_id := some 1 }],
    relationships := [{ id := 1, source_person_id := 1, target_person_id := 2,
                        relationship_type := "spouse", confidence := none, notes := none,
                        source_document_id := some 1 }],
    person_documents :=
      [{ id := 1, person_id := 2, document_id := 7, link_type := "mentioned_in", notes := none },
       { id := 2, person_id := 2, document_id := 7, link_type := "portrait_of", notes := none }],
    next_person_id := 3, next_name_id := 3, next_event_id := 2,
    next_relationship_id := 2, next_person_document_id := 3 }

/-- Example state for the amended document-link claim: person 1 holds a link
to document 7; person 2 holds links to the distinct documents 7 and 8. -/
def exDb2 : DB :=
  { documents := [],
    people :=
      [{ id := 1, primary_name := "ann", notes := none, confidence := none,
         source_document_id := none, family_name := none, family_side := none },
       { id := 2, primary_name := "bob", notes := none, confidence := none,
         source_document_id := none, family_name := none, family_side := none }],
    names := [],
    events := [],
    relationships := [],
    person_documents :=
      [{ id := 1, person_id := 1, document_id := 7, link_type := "extracted_from", notes := none },
       { id := 2, person_id := 2, document_id := 7, link_type := "mentioned_in", notes := none },
       { id := 3, person_id := 2, document_id := 8, link_type := "extracted_from", notes := none }],
    next_person_id := 3, next_name_id := 1, next_event_id := 1,
    next_relationship_id := 1, next_person_document_id := 4 }

/-- Example state with no rows (fresh database file). -/
def exDb0 : DB :=
  { documents := [], people := [], names := [], events := [], relationships := [],
    person_documents := [], next_person_id := 1, next_name_id := 1, next_event_id := 1,
    next_relationship_id := 1, next_person_document_id := 1 }

/-- Example state for the name-gate claim: persons "ab" and "cd" with
dissimilar names but identical birth dates. -/
def exDbGate : DB :=
  { documents := [],
    people :=
      [{ id := 1, primary_name := "ab", notes := none, confidence := none,
         source_document_id := none, family_name := none, family_side := none },
       { id := 2, primary_name := "cd", notes := none, confidence := none,
         source_document_id := none, family_name := none, family_side := none }],
    names := [],
    events :=
      [{ id := 1, person_id := 1, event_type := "birth", date := some "1900-01-01",
         place := none, description := none, confidence := none, source_document_id := none },
       { id := 2, person_id := 2, event_type := "birth", date := some "1900-01-01",
         place := none, description := none, confidence := none, source_document_id := none }],
    relationships := [],
    person_documents := [],
    next_person_id := 3, next_name_id := 1, next_event_id := 3,
    next_relationship_id := 1, next_person_document_id := 1 }

/-- The agent with the constructor-default thresholds
(`name_threshold=0.85`, `min_confidence=0.60`). -/
def defaultAgent : ReconciliationAgent :=
  { name_threshold := 85 / 100, min_confidence := 60 / 100 }

/-- Example state for the confidence-shift claim: two people with identical
primary names and identical non-empty birth dates (and no places or death
events). -/
def exDbC5 : DB :=
  { documents := [],
    people :=
      [{ id := 1, primary_name := "john smith", notes := none, confidence := none,
         source_document_id := none, family_name := none, family_side := none },
       { id := 2, primary_name := "john smith", notes := none, confidence := none,
         source_document_id := none, family_name := none, family_side := none }],
    names := [],
    events :=
      [{ id := 1, person_id := 1, event_type := "birth", date := some "1900",
         place := none, description := none, confidence := none, source_document_id := none },
       { id := 2, person_id := 2, event_type := "birth", date := some "1900",
         place := none, description := none, confidence := none, source_document_id := none }],
    relationships := [],
    person_documents := [],
    next_person_id := 3, next_name_id := 1, next_event_id := 3,
    next_relationship_id := 1, next_person_document_id := 1 }

/-- The first person of `exDbC5`. -/
def exC5P1 : Person :=
  { id := 1, primary_name := "john smith", notes := none, confidence := none,
    source_document_id := none, family_name := none, family_side := none }

/-- The second person of `exDbC5`. -/
def exC5P2 : Person :=
  { id := 2, primary_name := "john smith", notes := none, confidence := none,
    source_document_id := none, family_name := none, family_side := none }

/-- The first person of `exDbGate`. -/
def exGateP1 : Person :=
  { id := 1, primary_name := "ab", notes := none, confidence := none,
    source_document_id := none, family_name := none, family_side := none }

/-- The second person of `exDbGate`. -/
def exGateP2 : Person :=
  { id := 2, primary_name := "cd", notes := none, confidence := none,
    source_document_id := none, family_name := none, family_side := none }

/-- Example extraction result: one person with a name variant, one event and
one relationship referencing an existing person by name. -/
def exEr : ExtractionResult :=
  { people := [{ primary_name := "carol", name_variants := ["Cee"],
                 confidence := 9 / 10, notes := none }],
    events := [{ person_name := "carol", event_type := "birth", date := some "1901",
                 place := none, confidence := 8 / 10, notes := none }],
    relationships := [{ person1 := "carol", person2 := "ann",
                        relationship_type := "child", confidence := 7 / 10,
                        notes := none }] }

/-! ## Helper lemmas -/

theorem mergeNameLoop_cons (k : Nat) (ex : List String) (n : Name) (ns : List Name)
    (db : DB) :
    mergeNameLoop k ex (n :: ns) db =
      (if ex.contains (lowerStr n.name) then mergeNameLoop k ex ns db
       else mergeNameLoop k ex ns (add_name db k n.name none none)) := by
  by_cases h : (lowerStr n.name) ∈ ex <;> simp [mergeNameLoop, h]

theorem mergeNameLoop_people (k : Nat) (ex : List String) (l : List Name) (db : DB) :
    (mergeNameLoop k ex l db).people = db.people := by
  induction l generalizing db with
  | nil => rfl
  | cons n ns ih =>
    rw [mergeNameLoop_cons]
    by_cases h : (lowerStr n.name) ∈ ex <;> simp [h, ih, add_name]

theorem mergeNameLoop_documents (k : Nat) (ex : List String) (l : List Name) (db : DB) :
    (mergeNameLoop k ex l db).documents = db.documents := by
  induction l generalizing db with
  | nil => rfl
  | cons n ns ih =>
    rw [mergeNameLoop_cons]
    by_cases h : (lowerStr n.name) ∈ ex <;> simp [h, ih, add_name]

theorem mergeNameLoop_events (k : Nat) (ex : List String) (l : List Name) (db : DB) :
    (mergeNameLoop k ex l db).events = db.events := by
  induction l generalizing db with
  | nil => rfl
  | cons n ns ih =>
    rw [mergeNameLoop_cons]
    by_cases h : (lowerStr n.name) ∈ ex <;> simp [h, ih, add_name]

theorem mergeNameLoop_relationships (k : Nat) (ex : List String) (l : List Name) (db : DB) :
    (mergeNameLoop k ex l db).relationships = db.relationships := by
  induction l generalizing db with
  | nil => rfl
  | cons n ns ih =>
    rw [mergeNameLoop_cons]
    by_cases h : (lowerStr n.name) ∈ ex <;> simp [h, ih, add_name]

theorem mergeNameLoop_person_documents (k : Nat) (ex : List String) (l : List Name)
    (db : DB) :
    (mergeNameLoop k ex l db).person_documents = db.person_documents := by
  induction l generalizing db with
  | nil => rfl
  | cons n ns ih =>
    rw [mergeNameLoop_cons]
    by_cases h : (lowerStr n.name) ∈ ex <;> simp [h, ih, add_name]

theorem mergeNameLoop_next_person_id (k : Nat) (ex : List String) (l : List Name)
    (db : DB) :
    (mergeNameLoop k ex l db).next_person_id = db.next_person_id := by
  induction l generalizing db with
  | nil => rfl
  | cons n ns ih =>
    rw [mergeNameLoop_cons]
    by_cases h : (lowerStr n.name) ∈ ex <;> simp [h, ih, add_name]

theorem mergeNameLoop_names (k : Nat) (ex : List String) (l : List Name) (db : DB) :
    (mergeNameLoop k ex l db).names = db.names ++ mergeNewRows k ex db.next_name_id l := by
  induction l generalizing db with
  | nil => simp [mergeNameLoop, mergeNewRows]
  | cons n ns ih =>
    rw [mergeNameLoop_cons]
    by_cases h : (lowerStr n.name) ∈ ex
    · simp [h, ih, mergeNewRows]
    · simp [h, ih, mergeNewRows, add_name, List.append_assoc]

theorem mem_mergeNewRows {k : Nat} {ex : List String} {s : Nat} {l : List Name}
    {r : Name} (h : r ∈ mergeNewRows k ex s l) :
    r.person_id = k ∧ s ≤ r.id ∧ (lowerStr r.name) ∉ ex ∧
      ∃ n, n ∈ l ∧ r.name = n.name := by
  induction l generalizing s with
  | nil => simp [mergeNewRows] at h
  | cons n ns ih =>
    by_cases hc : (lowerStr n.name) ∈ ex
    · rw [mergeNewRows, if_pos (by simpa using hc)] at h
      obtain ⟨h1, h2, h3, n2, hn2, hr⟩ := ih h
      exact ⟨h1, h2, h3, n2, List.mem_cons_of_mem _ hn2, hr⟩
    · rw [mergeNewRows, if_neg (by simpa using hc)] at h
      rcases List.mem_cons.mp h with h | h
      · subst h
        exact ⟨rfl, le_refl _, hc, n, List.mem_cons_self _ _, rfl⟩
      · obtain ⟨h1, h2, h3, n2, hn2, hr⟩ := ih h
        exact ⟨h1, by omega, h3, n2, List.mem_cons_of_mem _ hn2, hr⟩

theorem mergeNewRows_complete {k : Nat} {ex : List String} {l : List Name}
    (s : Nat) {n : Name} (h : n ∈ l) (hn : (lowerStr n.name) ∉ ex) :
    ∃ r, r ∈ mergeNewRows k ex s l ∧ r.name = n.name ∧ r.person_id = k := by
  induction l generalizing s with
  | nil => simp at h
  | cons m ms ih =>
    rcases List.mem_cons.mp h with h | h
    · subst h
      rw [mergeNewRows, if_neg (by simpa using hn)]
      exact ⟨_, List.mem_cons_self _ _, rfl, rfl⟩
    · by_cases hc : (lowerStr m.name) ∈ ex
      · rw [mergeNewRows, if_pos (by simpa using hc)]
        exact ih _ h
      · rw [mergeNewRows, if_neg (by simpa using hc)]
        obtain ⟨r, hr, hname, hpid⟩ := ih (s + 1) h
        exact ⟨r, List.mem_cons_of_mem _ hr, hname, hpid⟩

theorem collapseLink_eq_some {k m : Nat} {ex : List Nat} {l l2 : PersonDocument}
    (h : collapseLink k m ex l = some l2) :
    l2.id = l.id ∧ l2.document_id = l.document_id ∧ l2.link_type = l.link_type ∧
      ((l.person_id = m ∧ l.document_id ∉ ex ∧ l2.person_id = k) ∨
        (l.person_id ≠ m ∧ l2 = l)) := by
  unfold collapseLink at h
  by_cases hp : l.person_id = m
  · rw [if_pos (by simpa using hp)] at h
    by_cases hd : l.document_id ∈ ex
    · rw [if_pos (by simpa using hd)] at h
      exact absurd h (by simp)
    · rw [if_neg (by simpa using hd)] at h
      rw [Option.some.injEq] at h
      subst h
      exact ⟨rfl, rfl, rfl, Or.inl ⟨hp, hd, rfl⟩⟩
  · rw [if_neg (by simpa using hp)] at h
    rw [Option.some.injEq] at h
    subst h
    exact ⟨rfl, rfl, rfl, Or.inr ⟨hp, rfl⟩⟩

theorem collapseLink_not_existing {k m : Nat} {ex : List Nat} {l : PersonDocument}
    (hp : l.person_id = m) (hd : l.document_id ∉ ex) :
    collapseLink k m ex l = some { l with person_id := k } := by
  unfold collapseLink
  rw [if_pos (by simpa using hp), if_neg (by simpa using hd)]

theorem collapseLink_existing {k m : Nat} {ex : List Nat} {l : PersonDocument}
    (hp : l.person_id = m) (hd : l.document_id ∈ ex) :
    collapseLink k m ex l = none := by
  unfold collapseLink
  rw [if_pos (by simpa using hp), if_pos (by simpa using hd)]

/-! ## C10: deleting a missing document id is a no-op that returns normally -/

/-- C10: for a document id that resolves to no row, `delete_document` returns
normally (no error) and leaves every table unchanged. -/
theorem c10_delete_document_missing_id (db : DB) (document_id : Nat) (commitOk : Bool)
    (h : db.documents.find? (fun d => d.id == document_id) = none) :
    delete_document db document_id commitOk = { res := OpRes.ok, db := db } := by
  simp [delete_document, h]

/-- Witness for C10 at a concrete state: document id 5 does not exist in `exDb`. -/
theorem c10_delete_document_missing_id_witness :
    exDb.documents.find? (fun d => d.id == 5) = none ∧
    delete_document exDb 5 true = { res := OpRes.ok, db := exDb } :=
  ⟨by decide, c10_delete_document_missing_id exDb 5 true (by decide)⟩

/-! ## C9: delete_document cascades over all pages, atomically -/

/-- C9: for a document id that resolves, a successful `delete_document`
removes every document sharing the source path, and every person, event and
relationship whose `source_document_id` is one of those pages; a failing
commit leaves the store exactly unchanged (and raises a storage error). -/
theorem c9_delete_document_cascade (db : DB) (document_id : Nat) (doc : Document)
    (h : db.documents.find? (fun d => d.id == document_id) = some doc) :
    ((delete_document db document_id true).res = OpRes.ok ∧
     (∀ d ∈ (delete_document db document_id true).db.documents, d.source ≠ doc.source) ∧
     (∀ p ∈ (delete_document db document_id true).db.people,
        optMember p.source_document_id
          ((db.documents.filter (fun d => d.source == doc.source)).map (fun d => d.id)) =
          false) ∧
     (∀ e ∈ (delete_document db document_id true).db.events,
        optMember e.source_document_id
          ((db.documents.filter (fun d => d.source == doc.source)).map (fun d => d.id)) =
          false) ∧
     (∀ r ∈ (delete_document db document_id true).db.relationships,
        optMember r.source_document_id
          ((db.documents.filter (fun d => d.source == doc.source)).map (fun d => d.id)) =
          false)) ∧
    delete_document db document_id false = { res := OpRes.err DbError.storage, db := db } := by
  constructor
  · simp only [delete_document, h, if_true]
    refine ⟨trivial, ?_, ?_, ?_, ?_⟩
    · intro d hd
      simp only [List.mem_filter, bne_iff_ne, ne_eq] at hd
      exact hd.2
    · intro p hp
      simp only [List.mem_filter, Bool.not_eq_true'] at hp
      exact hp.2
    · intro e he
      simp only [List.mem_filter, Bool.and_eq_true, Bool.not_eq_true'] at he
      exact he.2.1
    · intro r hr
      simp only [List.mem_filter, Bool.not_eq_true'] at hr
      exact hr.2
  · simp [delete_document, h]

/-- Witness for C9 at a concrete state: deleting document 1 of `exDb`. -/
theorem c9_delete_document_cascade_witness :
    exDb.documents.find? (fun d => d.id == 1) =
      some { id := 1, source := "a.jpg", page := some 1, ocr_text := none,
             document_type := none } ∧
    ((delete_document exDb 1 true).res = OpRes.ok ∧
     (∀ d ∈ (delete_document exDb 1 true).db.documents, d.source ≠ "a.jpg") ∧
     (∀ p ∈ (delete_document exDb 1 true).db.people,
        optMember p.source_document_id
          ((exDb.documents.filter (fun d => d.source == "a.jpg")).map (fun d => d.id)) =
          false) ∧
     (∀ e ∈ (delete_document exDb 1 true).db.events,
        optMember e.source_document_id
          ((exDb.documents.filter (fun d => d.source == "a.jpg")).map (fun d => d.id)) =
          false) ∧
     (∀ r ∈ (delete_document exDb 1 true).db.relationships,
        optMember r.source_document_id
          ((exDb.documents.filter (fun d => d.source == "a.jpg")).map (fun d => d.id)) =
          false)) ∧
    delete_document exDb 1 false = { res := OpRes.err DbError.storage, db := exDb } := by
  refine ⟨by decide, ?_⟩
  exact c9_delete_document_cascade exDb 1
    { id := 1, source := "a.jpg", page := some 1, ocr_text := none, document_type := none }
    (by decide)

theorem remapRel_no_merge {keep_id merge_id : Nat} (hne : keep_id ≠ merge_id)
    (r : Relationship) :
    (remapRel keep_id merge_id r).source_person_id ≠ merge_id ∧
      (remapRel keep_id merge_id r).target_person_id ≠ merge_id := by
  by_cases hs : r.source_person_id = merge_id <;>
    by_cases ht : r.target_person_id = merge_id <;>
      simp [remapRel, hs, ht, hne]

/-! ## C3: merge not-found behaviour and idempotence under retry -/

/-- C3: `merge_people` raises its not-found error exactly when one of the two
ids fails to resolve to a live person row; in that case the store is left
untouched; and after a successful merge, re-invoking merge with the absorbed
id (against any keep id, with or without a commit failure) fails with the
same not-found error and changes nothing. -/
theorem c3_merge_not_found_iff (db : DB) (keep_id merge_id : Nat) (commitOk : Bool) :
    ((merge_people db keep_id merge_id commitOk).res = OpRes.err DbError.not_found ↔
      find_person db keep_id = none ∨ find_person db merge_id = none) ∧
    ((merge_people db keep_id merge_id commitOk).res = OpRes.err DbError.not_found →
      (merge_people db keep_id merge_id commitOk).db = db) ∧
    ((merge_people db keep_id merge_id true).res = OpRes.ok →
      ∀ (k2 : Nat) (c2 : Bool),
        (merge_people (merge_people db keep_id merge_id true).db k2 merge_id c2).res =
            OpRes.err DbError.not_found ∧
          (merge_people (merge_people db keep_id merge_id true).db k2 merge_id c2).db =
            (merge_people db keep_id merge_id true).db) := by
  cases hk : find_person db keep_id with
  | none => simp [merge_people, hk]
  | some kp =>
    cases hm : find_person db merge_id with
    | none => simp [merge_people, hk, hm]
    | some mp =>
      refine ⟨?_, ?_, ?_⟩
      · cases commitOk <;> simp [merge_people, hk, hm]
      · cases commitOk <;> simp [merge_people, hk, hm]
      · intro _ k2 c2
        have hnone : find_person (merge_people db keep_id merge_id true).db merge_id =
            none := by
          simp only [merge_people, hk, hm, if_true]
          apply List.find?_eq_none.mpr
          intro p hp
          simp only [List.mem_filter] at hp
          simpa using hp.2
        set db2 := (merge_people db keep_id merge_id true).db with hdb2
        cases hk2 : find_person db2 k2 <;> simp [merge_people, hk2, hnone]

/-- Witness for C3 at a concrete state: id 5 does not exist in `exDb`, so the
merge fails with the not-found error and leaves the store unchanged. -/
theorem c3_merge_not_found_iff_witness :
    (merge_people exDb 1 5 true).res = OpRes.err DbError.not_found ∧
      (merge_people exDb 1 5 true).db = exDb := by
  have h := c3_merge_not_found_iff exDb 1 5 true
  have hres := h.1.mpr (Or.inr (by decide))
  exact ⟨hres, h.2.1 hres⟩

/-! ## C1: merge referential integrity -/

/-- C1: after a successful `merge_people(keep_id, merge_id)` with distinct,
resolving ids, no event, relationship, person-document link, or person row
references the absorbed id; every event that referenced it now carries the
kept id, and every relationship is re-pointed on both endpoints. -/
theorem c1_merge_referential_integrity (db : DB) (keep_id merge_id : Nat)
    (kp mp : Person) (hk : find_person db keep_id = some kp)
    (hm : find_person db merge_id = some mp) (hne : keep_id ≠ merge_id) :
    (merge_people db keep_id merge_id true).res = OpRes.ok ∧
    (∀ e ∈ (merge_people db keep_id merge_id true).db.events, e.person_id ≠ merge_id) ∧
    (∀ r ∈ (merge_people db keep_id merge_id true).db.relationships,
        r.source_person_id ≠ merge_id ∧ r.target_person_id ≠ merge_id) ∧
    (∀ l ∈ (merge_people db keep_id merge_id true).db.person_documents,
        l.person_id ≠ merge_id) ∧
    (∀ p ∈ (merge_people db keep_id merge_id true).db.people, p.id ≠ merge_id) ∧
    (∀ e ∈ db.events, e.person_id = merge_id →
        { e with person_id := keep_id } ∈ (merge_people db keep_id merge_id true).db.events) ∧
    (∀ r ∈ db.relationships,
        remapRel keep_id merge_id r ∈
          (merge_people db keep_id merge_id true).db.relationships) := by
  simp only [merge_people, hk, hm, if_true]
  refine ⟨trivial, ?_, ?_, ?_, ?_, ?_, ?_⟩
  · intro e he
    simp only [List.mem_filter] at he
    simpa using he.2
  · intro r hr
    simp only [List.mem_map] at hr
    obtain ⟨r0, _, hr0⟩ := hr
    subst hr0
    exact remapRel_no_merge hne r0
  · intro l hl
    simp only [List.mem_filterMap, mergeNameLoop_person_documents] at hl
    obtain ⟨l0, _, hg⟩ := hl
    obtain ⟨_, _, _, hcase⟩ := collapseLink_eq_some hg
    rcases hcase with ⟨_, _, hpk⟩ | ⟨hne0, heq⟩
    · rw [hpk]
      exact hne
    · rw [heq]
      exact hne0
  · intro p hp
    simp only [List.mem_filter] at hp
    simpa using hp.2
  · intro e he hmerge
    simp only [mergeNameLoop_events, List.mem_filter, List.mem_map]
    constructor
    · exact ⟨e, he, by rw [if_pos (by simpa using hmerge)]⟩
    · simpa using hne
  · intro r hr
    simp only [mergeNameLoop_relationships, List.mem_map]
    exact ⟨r, hr, rfl⟩

/-- Witness for C1 at a concrete state: merging person 2 into person 1 of
`exDb`. -/
theorem c1_merge_referential_integrity_witness :
    find_person exDb 1 =
      some { id := 1, primary_name := "ann", notes := none, confidence := none,
             source_document_id := some 1, family_name := none, family_side := none } ∧
    find_person exDb 2 =
      some { id := 2, primary_name := "bob", notes := none, confidence := none,
             source_document_id := some 1, family_name := some "scheldt",
             family_side := some "maternal" } ∧
    (1 : Nat) ≠ 2 ∧
    ((merge_people exDb 1 2 true).res = OpRes.ok ∧
     (∀ e ∈ (merge_people exDb 1 2 true).db.events, e.person_id ≠ 2) ∧
     (∀ r ∈ (merge_people exDb 1 2 true).db.relationships,
        r.source_person_id ≠ 2 ∧ r.target_person_id ≠ 2) ∧
     (∀ l ∈ (merge_people exDb 1 2 true).db.person_documents, l.person_id ≠ 2) ∧
     (∀ p ∈ (merge_people exDb 1 2 true).db.people, p.id ≠ 2) ∧
     (∀ e ∈ exDb.events, e.person_id = 2 →
        { e with person_id := 1 } ∈ (merge_people exDb 1 2 true).db.events) ∧
     (∀ r ∈ exDb.relationships,
        remapRel 1 2 r ∈ (merge_people exDb 1 2 true).db.relationships)) :=
  ⟨by decide, by decide, by decide,
    c1_merge_referential_integrity exDb 1 2
      { id := 1, primary_name := "ann", notes := none, confidence := none,
        source_document_id := some 1, family_name := none, family_side := none }
      { id := 2, primary_name := "bob", notes := none, confidence := none,
        source_document_id := some 1, family_name := some "scheldt",
        family_side := some "maternal" }
      (by decide) (by decide) (by decide)⟩

/-! ## Similarity-function lemmas -/

theorem lcsAux_comm (f : Nat) : ∀ xs ys, lcsAux f xs ys = lcsAux f ys xs := by
  induction f with
  | zero => intro xs ys; rfl
  | succ f ih =>
    intro xs ys
    cases xs with
    | nil => cases ys <;> rfl
    | cons a as =>
      cases ys with
      | nil => rfl
      | cons b bs =>
        by_cases hab : a = b
        · subst hab
          simp [lcsAux, ih as bs]
        · have hba : ¬b = a := fun h => hab h.symm
          rw [lcsAux, lcsAux, if_neg hab, if_neg hba, ih (a :: as) bs, ih as (b :: bs)]
          exact Nat.max_comm _ _

theorem lcs_comm (xs ys : List Char) : lcs xs ys = lcs ys xs := by
  unfold lcs
  rw [lcsAux_comm, Nat.add_comm]

theorem lcsAux_le_left (f : Nat) : ∀ xs ys, lcsAux f xs ys ≤ xs.length := by
  induction f with
  | zero => intro xs ys; exact Nat.zero_le _
  | succ f ih =>
    intro xs ys
    cases xs with
    | nil => exact Nat.zero_le _
    | cons a as =>
      cases ys with
      | nil => exact Nat.zero_le _
      | cons b bs =>
        rw [lcsAux]
        by_cases hab : a = b
        · rw [if_pos hab]
          exact Nat.succ_le_succ (ih as bs)
        · rw [if_neg hab]
          exact Nat.max_le.mpr ⟨ih (a :: as) bs, Nat.le_trans (ih as (b :: bs))
            (Nat.le_succ _)⟩

theorem lcs_le_left (xs ys : List Char) : lcs xs ys ≤ xs.length :=
  lcsAux_le_left _ xs ys

theorem lcs_le_right (xs ys : List Char) : lcs xs ys ≤ ys.length := by
  rw [lcs_comm]
  exact lcs_le_left ys xs

theorem fuzzRatio_comm (s1 s2 : String) : fuzzRatio s1 s2 = fuzzRatio s2 s1 := by
  unfold fuzzRatio
  rw [lcs_comm, Nat.add_comm]

theorem fuzzRatio_nonneg (s1 s2 : String) : 0 ≤ fuzzRatio s1 s2 := by
  simp only [fuzzRatio]
  split
  · norm_num
  · positivity

theorem fuzzRatio_le_100 (s1 s2 : String) : fuzzRatio s1 s2 ≤ 100 := by
  simp only [fuzzRatio]
  split
  · norm_num
  · rename_i hn
    have hlen1 : s1.length = s1.data.length := rfl
    have hlen2 : s2.length = s2.data.length := rfl
    have h1 : lcs s1.data s2.data ≤ s1.data.length := lcs_le_left _ _
    have h2 : lcs s1.data s2.data ≤ s2.data.length := lcs_le_right _ _
    have hpos : (0 : Rat) < ((s1.length + s2.length : Nat) : Rat) := by
      have : 0 < s1.length + s2.length := Nat.pos_of_ne_zero hn
      exact_mod_cast this
    rw [div_le_iff₀ hpos]
    push_cast
    rw [hlen1, hlen2]
    have h1q : ((lcs s1.data s2.data : Nat) : Rat) ≤ (s1.data.length : Rat) := by
      exact_mod_cast h1
    have h2q : ((lcs s1.data s2.data : Nat) : Rat) ≤ (s2.data.length : Rat) := by
      exact_mod_cast h2
    linarith

theorem foldl_max_lt_of_lt {α : Type} (f : α → Rat) {t a : Rat} (l : List α) (ha : a < t)
    (hl : ∀ x ∈ l, f x < t) : l.foldl (fun acc x => max acc (f x)) a < t := by
  induction l generalizing a with
  | nil => exact ha
  | cons x xs ih =>
    simp only [List.foldl_cons]
    exact ih (max_lt ha (hl x (List.mem_cons_self _ _)))
      (fun y hy => hl y (List.mem_cons_of_mem _ hy))

theorem foldl_nested_max_lt {t : Rat} (l1 l2 : List String) (a : Rat) (ha : a < t)
    (hl : ∀ n1 ∈ l1, ∀ n2 ∈ l2, fuzzRatio n1 n2 / 100 < t) :
    l1.foldl
      (fun acc n1 => l2.foldl (fun acc2 n2 => max acc2 (fuzzRatio n1 n2 / 100)) acc)
      a < t := by
  induction l1 generalizing a with
  | nil => exact ha
  | cons x xs ih =>
    simp only [List.foldl_cons]
    refine ih _ ?_ (fun n1 h1 n2 h2 => hl n1 (List.mem_cons_of_mem _ h1) n2 h2)
    exact foldl_max_lt_of_lt _ l2 ha (fun n2 h => hl x (List.mem_cons_self _ _) n2 h)

theorem nameGate_eq_none {ag : ReconciliationAgent} {db : DB} {p1 p2 : Person}
    (hall : ∀ n1 ∈ nameSet db p1, ∀ n2 ∈ nameSet db p2,
      fuzzRatio n1 n2 / 100 < ag.name_threshold) :
    nameGate ag db p1 p2 = none := by
  have hps : fuzzRatio (lowerStr p1.primary_name) (lowerStr p2.primary_name) / 100 <
      ag.name_threshold := by
    have h1 : (lowerStr p1.primary_name) ∈ nameSet db p1 := List.mem_cons_self _ _
    have h2 : (lowerStr p2.primary_name) ∈ nameSet db p2 := List.mem_cons_self _ _
    exact hall _ h1 _ h2
  have ht : 0 < ag.name_threshold := by
    have h0 : (0 : Rat) ≤ fuzzRatio (lowerStr p1.primary_name) (lowerStr p2.primary_name) / 100 :=
      div_nonneg (fuzzRatio_nonneg _ _) (by norm_num)
    exact lt_of_le_of_lt h0 hps
  unfold nameGate
  rw [if_neg (not_le.mpr hps), if_neg (not_le.mpr (foldl_nested_max_lt _ _ _ ht hall))]

theorem compare_people_gate_none {ag : ReconciliationAgent} {db : DB} {p1 p2 : Person}
    (h : nameGate ag db p1 p2 = none) : compare_people ag db p1 p2 = none := by
  unfold compare_people
  rw [h]

theorem compare_people_some_ids {ag : ReconciliationAgent} {db : DB} {p1 p2 : Person}
    {c : DuplicateCandidate} (h : compare_people ag db p1 p2 = some c) :
    c.person1_id = p1.id ∧ c.person2_id = p2.id := by
  unfold compare_people at h
  cases hg : nameGate ag db p1 p2 with
  | none => rw [hg] at h; exact absurd h (by simp)
  | some s0 =>
    rw [hg] at h
    simp only [List.isEmpty_cons, Bool.false_eq_true, if_false, Option.some.injEq] at h
    subst h
    exact ⟨rfl, rfl⟩

theorem mem_allPairs {α : Type} {x y : α} {l : List α} (h : (x, y) ∈ allPairs l) :
    x ∈ l ∧ y ∈ l := by
  induction l with
  | nil => simp [allPairs] at h
  | cons z zs ih =>
    rw [allPairs] at h
    rcases List.mem_append.mp h with h | h
    · obtain ⟨w, hw, heq⟩ := List.mem_map.mp h
      rw [Prod.mk.injEq] at heq
      obtain ⟨h1, h2⟩ := heq
      subst h1
      subst h2
      exact ⟨List.mem_cons_self _ _, List.mem_cons_of_mem _ hw⟩
    · obtain ⟨h1, h2⟩ := ih h
      exact ⟨List.mem_cons_of_mem _ h1, List.mem_cons_of_mem _ h2⟩

theorem mem_insertDesc {c x : DuplicateCandidate} {l : List DuplicateCandidate} :
    x ∈ insertDesc c l ↔ x = c ∨ x ∈ l := by
  induction l with
  | nil => simp [insertDesc]
  | cons y ys ih =>
    by_cases h : y.confidence < c.confidence
    · simp [insertDesc, h]
    · simp only [insertDesc, if_neg h, List.mem_cons, ih]
      tauto

theorem mem_sortDesc {x : DuplicateCandidate} {l : List DuplicateCandidate} :
    x ∈ sortDesc l ↔ x ∈ l := by
  induction l with
  | nil => simp [sortDesc]
  | cons y ys ih =>
    simp only [sortDesc, mem_insertDesc, List.mem_cons, ih]

theorem find_duplicates_mem {ag : ReconciliationAgent} {db : DB}
    {c : DuplicateCandidate} (hc : c ∈ find_duplicates ag db) :
    ∃ a b, a ∈ db.people ∧ b ∈ db.people ∧ compare_people ag db a b = some c ∧
      ag.min_confidence ≤ c.confidence := by
  unfold find_duplicates at hc
  rw [mem_sortDesc] at hc
  obtain ⟨pq, hab, hfc⟩ := List.mem_filterMap.mp hc
  obtain ⟨a, b⟩ := pq
  have hmem := mem_allPairs hab
  cases hcm : compare_people ag db a b with
  | none =>
    simp only [hcm] at hfc
    exact absurd hfc (by simp)
  | some c0 =>
    simp only [hcm] at hfc
    by_cases hmin : ag.min_confidence ≤ c0.confidence
    · rw [if_pos hmin, Option.some.injEq] at hfc
      subst hfc
      exact ⟨a, b, hmem.1, hmem.2, hcm, hmin⟩
    · rw [if_neg hmin] at hfc
      exact absurd hfc (by simp)

/-! ## C2: merge atomicity is broken by the separately committed add_name -/

/-- C2 (evidence of the code bug): at the concrete state `exDb`, a merge of
person 2 into person 1 whose final commit fails raises the storage error and
rolls the session back, yet the two alternate-name rows copied onto person 1
by `self.add_name` were committed by their own sessions and survive: the
store is NOT left exactly as it was, contradicting the claimed atomicity. -/
theorem c2_merge_failed_commit_not_atomic :
    (merge_people exDb 1 2 false).res = OpRes.err DbError.storage ∧
    (merge_people exDb 1 2 false).db ≠ exDb ∧
    (merge_people exDb 1 2 false).db.names =
      exDb.names ++
        [{ id := 3, person_id := 1, name := "Jon", name_type := none, confidence := none },
         { id := 4, person_id := 1, name := "jon", name_type := none, confidence := none }] ∧
    (merge_people exDb 1 2 false).db.people = exDb.people := by
  decide

/-! ## C4: the name gate is necessary -/

/-- C4: if every cross-product pair over the two persons' lowered name sets
(primary name included) scores below the threshold, `find_duplicates` never
returns that pair of people, regardless of any matching dates or places in
the rest of the state. -/
theorem c4_name_gate_is_necessary (ag : ReconciliationAgent) (db : DB) (pA pB : Person)
    (hA : pA ∈ db.people) (hB : pB ∈ db.people)
    (hnodup : (db.people.map (fun p => p.id)).Nodup)
    (hall : ∀ n1 ∈ nameSet db pA, ∀ n2 ∈ nameSet db pB,
      fuzzRatio n1 n2 / 100 < ag.name_threshold) :
    ∀ c ∈ find_duplicates ag db,
      ¬((c.person1_id = pA.id ∧ c.person2_id = pB.id) ∨
        (c.person1_id = pB.id ∧ c.person2_id = pA.id)) := by
  intro c hc hcon
  obtain ⟨a, b, hma, hmb, hcomp, _⟩ := find_duplicates_mem hc
  obtain ⟨hid1, hid2⟩ := compare_people_some_ids hcomp
  rcases hcon with ⟨h1, h2⟩ | ⟨h1, h2⟩
  · have haA : a = pA :=
      List.inj_on_of_nodup_map hnodup hma hA (by rw [← hid1, h1])
    have hbB : b = pB :=
      List.inj_on_of_nodup_map hnodup hmb hB (by rw [← hid2, h2])
    rw [haA, hbB, compare_people_gate_none (nameGate_eq_none hall)] at hcomp
    exact absurd hcomp (by simp)
  · have haB : a = pB :=
      List.inj_on_of_nodup_map hnodup hma hB (by rw [← hid1, h1])
    have hbA : b = pA :=
      List.inj_on_of_nodup_map hnodup hmb hA (by rw [← hid2, h2])
    have hall2 : ∀ n1 ∈ nameSet db pB, ∀ n2 ∈ nameSet db pA,
        fuzzRatio n1 n2 / 100 < ag.name_threshold := by
      intro n1 h1m n2 h2m
      rw [fuzzRatio_comm]
      exact hall n2 h2m n1 h1m
    rw [haB, hbA, compare_people_gate_none (nameGate_eq_none hall2)] at hcomp
    exact absurd hcomp (by simp)

/-- Witness for C4 at a concrete state: "ab" and "cd" have similarity 0 and
no alternate names, yet share a birth date; the pair is never reported. -/
theorem c4_name_gate_is_necessary_witness :
    exGateP1 ∈ exDbGate.people ∧ exGateP2 ∈ exDbGate.people ∧
    (exDbGate.people.map (fun p => p.id)).Nodup ∧
    (∀ n1 ∈ nameSet exDbGate exGateP1, ∀ n2 ∈ nameSet exDbGate exGateP2,
      fuzzRatio n1 n2 / 100 < defaultAgent.name_threshold) ∧
    (∀ c ∈ find_duplicates defaultAgent exDbGate,
      ¬((c.person1_id = exGateP1.id ∧ c.person2_id = exGateP2.id) ∨
        (c.person1_id = exGateP2.id ∧ c.person2_id = exGateP1.id))) :=
  ⟨by decide, by decide, by decide, by with_unfolding_all decide,
    c4_name_gate_is_necessary defaultAgent exDbGate exGateP1 exGateP2
      (by decide) (by decide) (by decide) (by with_unfolding_all decide)⟩

/-! ## C5: how birth-date signals shift confidence against the name score -/

/-- C5 counterexample: two people with identical primary names (name score
exactly 1) and identical non-empty birth dates; the overall confidence is 1,
which is NOT strictly greater than the name-match score alone, refuting the
claim that identical birth dates always increase confidence. -/
theorem c5_counterexample_confidence_not_increased :
    nameGate defaultAgent exDbC5 exC5P1 exC5P2 = some 1 ∧
    birthDateScores exDbC5 exC5P1 exC5P2 = [1] ∧
    compare_people defaultAgent exDbC5 exC5P1 exC5P2 =
      some { person1_id := 1, person1_name := "john smith", person2_id := 2,
             person2_name := "john smith", confidence := 1 } ∧
    ¬((1 : Rat) < 1) := by
  with_unfolding_all decide

theorem birthPlaceScores_cases (db : DB) (p1 p2 : Person) :
    birthPlaceScores db p1 p2 = [] ∨
      ∃ x, birthPlaceScores db p1 p2 = [x] ∧ 0 ≤ x ∧ x ≤ 8 / 10 := by
  unfold birthPlaceScores
  rcases get_event db p1.id "birth" with _ | e1
  · exact Or.inl rfl
  rcases get_event db p2.id "birth" with _ | e2
  · exact Or.inl rfl
  dsimp only
  rcases e1.place with _ | pl1
  · exact Or.inl rfl
  rcases e2.place with _ | pl2
  · exact Or.inl rfl
  dsimp only
  by_cases hne : pl1 ≠ "" ∧ pl2 ≠ ""
  · rw [if_pos hne]
    by_cases hge : (8 / 10 : Rat) ≤ fuzzRatio (lowerStr pl1) (lowerStr pl2) / 100
    · rw [if_pos hge]
      refine Or.inr ⟨_, rfl, ?_, ?_⟩
      · have h0 : (0 : Rat) ≤ fuzzRatio (lowerStr pl1) (lowerStr pl2) / 100 :=
          div_nonneg (fuzzRatio_nonneg _ _) (by norm_num)
        positivity
      · have h1 : fuzzRatio (lowerStr pl1) (lowerStr pl2) / 100 ≤ 1 := by
          rw [div_le_one (by norm_num)]
          exact fuzzRatio_le_100 _ _
        calc fuzzRatio (lowerStr pl1) (lowerStr pl2) / 100 * (8 / 10)
            ≤ 1 * (8 / 10) := by
              apply mul_le_mul_of_nonneg_right h1
              norm_num
          _ = 8 / 10 := one_mul _
    · rw [if_neg hge]
      exact Or.inl rfl
  · rw [if_neg hne]
    exact Or.inl rfl

theorem deathDateScores_cases (db : DB) (p1 p2 : Person) :
    deathDateScores db p1 p2 = [] ∨ deathDateScores db p1 p2 = [1] := by
  unfold deathDateScores
  rcases get_event db p1.id "death" with _ | e1
  · exact Or.inl rfl
  rcases get_event db p2.id "death" with _ | e2
  · exact Or.inl rfl
  dsimp only
  rcases e1.date with _ | d1
  · exact Or.inl rfl
  rcases e2.date with _ | d2
  · exact Or.inl rfl
  dsimp only
  by_cases hne : d1 ≠ "" ∧ d2 ≠ ""
  · rw [if_pos hne]
    by_cases heq : d1 = d2
    · rw [if_pos heq]
      exact Or.inr rfl
    · rw [if_neg heq]
      exact Or.inl rfl
  · rw [if_neg hne]
    exact Or.inl rfl

/-- C5 amended: for a pair that passes the name gate with score `s0` and has
birth events with truthy dates on both sides: identical dates push the mean
strictly above `s0` provided `s0 < 1` and no birth-place signal was collected
(a collected place signal, weighted at most 0.8, can drag the mean below a
high name score, and equal names give equality instead of an increase);
differing dates push the mean strictly below `s0` whenever `s0 > 0.6`, which
always holds at the default 0.85 threshold. -/
theorem c5_amended_confidence_shift (ag : ReconciliationAgent) (db : DB)
    (p1 p2 : Person) (s0 : Rat) (c : DuplicateCandidate)
    (hg : nameGate ag db p1 p2 = some s0)
    (hc : compare_people ag db p1 p2 = some c) :
    (birthDateScores db p1 p2 = [1] → birthPlaceScores db p1 p2 = [] → s0 < 1 →
      s0 < c.confidence) ∧
    (birthDateScores db p1 p2 = [0] → 6 / 10 < s0 → c.confidence < s0) := by
  have hconf : c.confidence =
      ((s0 :: (birthDateScores db p1 p2 ++ birthPlaceScores db p1 p2 ++
        deathDateScores db p1 p2)).sum) /
      (((s0 :: (birthDateScores db p1 p2 ++ birthPlaceScores db p1 p2 ++
        deathDateScores db p1 p2)).length : Nat) : Rat) := by
    unfold compare_people at hc
    rw [hg] at hc
    simp only [List.isEmpty_cons, Bool.false_eq_true, if_false, Option.some.injEq] at hc
    rw [← hc]
  constructor
  · intro hb hp hs
    rcases deathDateScores_cases db p1 p2 with hd | hd
    · rw [hconf, hb, hp, hd]
      simp only [List.append_nil, List.sum_cons, List.sum_append, List.sum_nil,
        List.length_cons, List.length_append, List.length_nil]
      rw [lt_div_iff₀ (by norm_num)]
      push_cast
      linarith
    · rw [hconf, hb, hp, hd]
      simp only [List.append_nil, List.nil_append, List.sum_cons, List.sum_append,
        List.sum_nil, List.length_cons, List.length_append, List.length_nil]
      rw [lt_div_iff₀ (by norm_num)]
      push_cast
      linarith
  · intro hb hs
    rcases birthPlaceScores_cases db p1 p2 with hp | ⟨x, hp, hx0, hx1⟩ <;>
      rcases deathDateScores_cases db p1 p2 with hd | hd <;>
        rw [hconf, hb, hp, hd] <;>
          simp only [List.append_nil, List.nil_append, List.sum_cons, List.sum_append,
            List.sum_nil, List.length_cons, List.length_append, List.length_nil] <;>
            rw [div_lt_iff₀ (by norm_num)] <;> push_cast <;> linarith

/-- Witness for C5 (amended) at a concrete state: the identical-name pair of
`exDbC5` passes the gate with score 1 and yields a candidate. -/
theorem c5_amended_confidence_shift_witness :
    nameGate defaultAgent exDbC5 exC5P1 exC5P2 = some 1 ∧
    compare_people defaultAgent exDbC5 exC5P1 exC5P2 =
      some { person1_id := 1, person1_name := "john smith", person2_id := 2,
             person2_name := "john smith", confidence := 1 } ∧
    ((birthDateScores exDbC5 exC5P1 exC5P2 = [1] →
        birthPlaceScores exDbC5 exC5P1 exC5P2 = [] → (1 : Rat) < 1 →
        (1 : Rat) <
          ({ person1_id := 1, person1_name := "john smith", person2_id := 2,
             person2_name := "john smith",
             confidence := 1 : DuplicateCandidate }).confidence) ∧
      (birthDateScores exDbC5 exC5P1 exC5P2 = [0] → 6 / 10 < (1 : Rat) →
        ({ person1_id := 1, person1_name := "john smith", person2_id := 2,
           person2_name := "john smith",
           confidence := 1 : DuplicateCandidate }).confidence < 1)) :=
  ⟨by with_unfolding_all decide, by with_unfolding_all decide,
    c5_amended_confidence_shift defaultAgent exDbC5 exC5P1 exC5P2 1 _
      (by with_unfolding_all decide) (by with_unfolding_all decide)⟩

/-! ## C6: document-link collapse during merge -/

/-- C6 counterexample: in `exDb` the absorbed person 2 holds two links (of
different link types) to the same document 7 while person 1 holds none; the
dedup set is computed once before the loop, so a successful merge re-points
BOTH links, leaving person 1 with two merge-affected links to document 7 —
refuting "at most one link per document id among the links affected by the
merge". -/
theorem c6_counterexample_duplicate_links :
    exDb.person_documents.filter (fun l => l.person_id == 1) = [] ∧
    (exDb.person_documents.filter (fun l => l.person_id == 2)).map
        (fun l => l.document_id) = [7, 7] ∧
    (merge_people exDb 1 2 true).res = OpRes.ok ∧
    ((merge_people exDb 1 2 true).db.person_documents.filter
        (fun l => l.person_id == 1 && l.document_id == 7)).length = 2 := by
  decide

/-- C6 amended: during a successful merge with distinct resolving ids and
unique link row ids, every link of the absorbed person whose document id is
not among the kept person's pre-existing linked document ids is re-pointed to
the kept person, and every absorbed link whose document id the kept person
already holds (by document id alone, ignoring link type) is deleted; the
merge-affected links then carry pairwise-distinct document ids PROVIDED the
absorbed person's links had pairwise-distinct document ids (without that
proviso the property fails, see the counterexample). -/
theorem c6_amended_document_link_merge (db : DB) (keep_id merge_id : Nat)
    (kp mp : Person) (hk : find_person db keep_id = some kp)
    (hm : find_person db merge_id = some mp) (hne : keep_id ≠ merge_id)
    (hids : (db.person_documents.map (fun l => l.id)).Nodup) :
    (∀ l ∈ db.person_documents, l.person_id = merge_id →
      l.document_id ∉ (db.person_documents.filter
        (fun l2 => l2.person_id == keep_id)).map (fun l2 => l2.document_id) →
      { l with person_id := keep_id } ∈
        (merge_people db keep_id merge_id true).db.person_documents) ∧
    (∀ l ∈ db.person_documents, l.person_id = merge_id →
      l.document_id ∈ (db.person_documents.filter
        (fun l2 => l2.person_id == keep_id)).map (fun l2 => l2.document_id) →
      ∀ l2 ∈ (merge_people db keep_id merge_id true).db.person_documents,
        l2.id ≠ l.id) ∧
    (((db.person_documents.filter (fun l => l.person_id == merge_id)).map
        (fun l => l.document_id)).Nodup →
      ∀ l1 ∈ (merge_people db keep_id merge_id true).db.person_documents,
        ∀ l2 ∈ (merge_people db keep_id merge_id true).db.person_documents,
          l1.id ∈ (db.person_documents.filter
            (fun l => l.person_id == merge_id)).map (fun l => l.id) →
          l2.id ∈ (db.person_documents.filter
            (fun l => l.person_id == merge_id)).map (fun l => l.id) →
          l1.document_id = l2.document_id → l1 = l2) := by
  simp only [merge_people, hk, hm, if_true, mergeNameLoop_person_documents]
  refine ⟨?_, ?_, ?_⟩
  · intro l hl hpid hdoc
    exact List.mem_filterMap.mpr ⟨l, hl, collapseLink_not_existing hpid hdoc⟩
  · intro l hl hpid hdoc l2 hl2 heq
    obtain ⟨l0, hl0, hg⟩ := List.mem_filterMap.mp hl2
    obtain ⟨hid0, _, _, _⟩ := collapseLink_eq_some hg
    have hl0l : l0 = l :=
      List.inj_on_of_nodup_map hids hl0 hl (by rw [← hid0, heq])
    rw [hl0l, collapseLink_existing hpid hdoc] at hg
    exact absurd hg (by simp)
  · intro hdocnodup l1 hl1 l2 hl2 hin1 hin2 hdoceq
    obtain ⟨l01, hl01, hg1⟩ := List.mem_filterMap.mp hl1
    obtain ⟨l02, hl02, hg2⟩ := List.mem_filterMap.mp hl2
    obtain ⟨hid1, hdoc1, _, _⟩ := collapseLink_eq_some hg1
    obtain ⟨hid2, hdoc2, _, _⟩ := collapseLink_eq_some hg2
    obtain ⟨lm1, hlm1, hlm1id⟩ := List.mem_map.mp hin1
    obtain ⟨lm2, hlm2, hlm2id⟩ := List.mem_map.mp hin2
    have hm1 := List.mem_filter.mp hlm1
    have hm2 := List.mem_filter.mp hlm2
    have h01 : l01 = lm1 :=
      List.inj_on_of_nodup_map hids hl01 hm1.1 (by rw [← hid1, hlm1id])
    have h02 : l02 = lm2 :=
      List.inj_on_of_nodup_map hids hl02 hm2.1 (by rw [← hid2, hlm2id])
    have hmem1 : l01 ∈ db.person_documents.filter (fun l => l.person_id == merge_id) := by
      rw [h01]
      exact hlm1
    have hmem2 : l02 ∈ db.person_documents.filter (fun l => l.person_id == merge_id) := by
      rw [h02]
      exact hlm2
    have h0eq : l01 = l02 :=
      List.inj_on_of_nodup_map hdocnodup hmem1 hmem2 (by rw [← hdoc1, ← hdoc2, hdoceq])
    rw [← h0eq, hg1] at hg2
    rw [Option.some.injEq] at hg2
    exact hg2

/-- Witness for C6 (amended) at a concrete state: merging person 2 of
`exDb2`, whose links point to the distinct documents 7 and 8, into person 1,
who already links document 7. -/
theorem c6_amended_document_link_merge_witness :
    find_person exDb2 1 =
      some { id := 1, primary_name := "ann", notes := none, confidence := none,
             source_document_id := none, family_name := none, family_side := none } ∧
    find_person exDb2 2 =
      some { id := 2, primary_name := "bob", notes := none, confidence := none,
             source_document_id := none, family_name := none, family_side := none } ∧
    (1 : Nat) ≠ 2 ∧
    (exDb2.person_documents.map (fun l => l.id)).Nodup ∧
    ((∀ l ∈ exDb2.person_documents, l.person_id = 2 →
      l.document_id ∉ (exDb2.person_documents.filter
        (fun l2 => l2.person_id == 1)).map (fun l2 => l2.document_id) →
      { l with person_id := 1 } ∈ (merge_people exDb2 1 2 true).db.person_documents) ∧
    (∀ l ∈ exDb2.person_documents, l.person_id = 2 →
      l.document_id ∈ (exDb2.person_documents.filter
        (fun l2 => l2.person_id == 1)).map (fun l2 => l2.document_id) →
      ∀ l2 ∈ (merge_people exDb2 1 2 true).db.person_documents, l2.id ≠ l.id) ∧
    (((exDb2.person_documents.filter (fun l => l.person_id == 2)).map
        (fun l => l.document_id)).Nodup →
      ∀ l1 ∈ (merge_people exDb2 1 2 true).db.person_documents,
        ∀ l2 ∈ (merge_people exDb2 1 2 true).db.person_documents,
          l1.id ∈ (exDb2.person_documents.filter
            (fun l => l.person_id == 2)).map (fun l => l.id) →
          l2.id ∈ (exDb2.person_documents.filter
            (fun l => l.person_id == 2)).map (fun l => l.id) →
          l1.document_id = l2.document_id → l1 = l2)) :=
  ⟨by decide, by decide, by decide, by decide,
    c6_amended_document_link_merge exDb2 1 2
      { id := 1, primary_name := "ann", notes := none, confidence := none,
        source_document_id := none, family_name := none, family_side := none }
      { id := 2, primary_name := "bob", notes := none, confidence := none,
        source_document_id := none, family_name := none, family_side := none }
      (by decide) (by decide) (by decide) (by decide)⟩

/-! ## C8: alternate-name copying during merge -/

/-- C8 counterexample: in `exDb` the absorbed person 2 owns the
case-insensitively equal alternate names "Jon" and "jon"; the duplicate check
consults only the kept person's name rows as loaded before the merge, so a
successful merge copies BOTH onto person 1, leaving two case-insensitively
equal name rows — refuting "no two case-insensitively equal Name rows for K
result from the merge". -/
theorem c8_counterexample_duplicate_names :
    exDb.names.filter (fun n => n.person_id == 1) = [] ∧
    (exDb.names.filter (fun n => n.person_id == 2)).map (fun n => lowerStr n.name) =
      ["jon", "jon"] ∧
    (merge_people exDb 1 2 true).res = OpRes.ok ∧
    ((merge_people exDb 1 2 true).db.names.filter (fun n => n.person_id == 1)).map
        (fun n => lowerStr n.name) = ["jon", "jon"] := by
  decide

/-- C8 amended: during a successful merge with distinct resolving ids (and
name row ids below the autoincrement counter), every name owned by the
absorbed person whose lowering is NOT among the kept person's pre-merge
lowered primary name and alternate names is copied onto the kept person, and
every name row added by the merge avoids that pre-merge set; the check never
sees names added earlier in the same merge, so several case-insensitively
equal variants of the absorbed person are all copied (see the
counterexample). -/
theorem c8_amended_name_merge (db : DB) (keep_id merge_id : Nat)
    (kp mp : Person) (hk : find_person db keep_id = some kp)
    (hm : find_person db merge_id = some mp) (hne : keep_id ≠ merge_id)
    (hbound : nameIdsBounded db) :
    (∀ n ∈ db.names, n.person_id = merge_id →
      (lowerStr n.name) ∉ (lowerStr kp.primary_name) ::
        (db.names.filter (fun n2 => n2.person_id == keep_id)).map
          (fun n2 => (lowerStr n2.name)) →
      ∃ r ∈ (merge_people db keep_id merge_id true).db.names,
        r.person_id = keep_id ∧ r.name = n.name) ∧
    (∀ r ∈ (merge_people db keep_id merge_id true).db.names,
      db.next_name_id ≤ r.id →
      r.person_id = keep_id ∧
      (lowerStr r.name) ∉ (lowerStr kp.primary_name) ::
        (db.names.filter (fun n2 => n2.person_id == keep_id)).map
          (fun n2 => (lowerStr n2.name)) ∧
      ∃ n ∈ db.names, n.person_id = merge_id ∧ r.name = n.name) := by
  simp only [merge_people, hk, hm, if_true, mergeNameLoop_names]
  constructor
  · intro n hn hpid hlow
    have hmem : n ∈ db.names.filter (fun n2 => n2.person_id == merge_id) :=
      List.mem_filter.mpr ⟨hn, by simpa using hpid⟩
    obtain ⟨r, hr, hrname, hrpid⟩ := mergeNewRows_complete db.next_name_id hmem hlow
    refine ⟨r, ?_, hrpid, hrname⟩
    apply List.mem_filter.mpr
    refine ⟨List.mem_append_right _ hr, ?_⟩
    simp [hrpid, hne]
  · intro r hr hid
    have hr2 := List.mem_filter.mp hr
    rcases List.mem_append.mp hr2.1 with hmem | hmem
    · exact absurd (hbound r hmem) (by omega)
    · obtain ⟨hpid, _, hlow, n, hn, hname⟩ := mem_mergeNewRows hmem
      have hn2 := List.mem_filter.mp hn
      exact ⟨hpid, hlow, n, hn2.1, by simpa using hn2.2, hname⟩

/-- Witness for C8 (amended) at a concrete state: merging person 2 of `exDb`
into person 1 ("ann", no alternate names). -/
theorem c8_amended_name_merge_witness :
    find_person exDb 1 =
      some { id := 1, primary_name := "ann", notes := none, confidence := none,
             source_document_id := some 1, family_name := none, family_side := none } ∧
    find_person exDb 2 =
      some { id := 2, primary_name := "bob", notes := none, confidence := none,
             source_document_id := some 1, family_name := some "scheldt",
             family_side := some "maternal" } ∧
    (1 : Nat) ≠ 2 ∧ nameIdsBounded exDb ∧
    ((∀ n ∈ exDb.names, n.person_id = 2 →
      (lowerStr n.name) ∉ (lowerStr "ann") ::
        (exDb.names.filter (fun n2 => n2.person_id == 1)).map
          (fun n2 => (lowerStr n2.name)) →
      ∃ r ∈ (merge_people exDb 1 2 true).db.names,
        r.person_id = 1 ∧ r.name = n.name) ∧
    (∀ r ∈ (merge_people exDb 1 2 true).db.names,
      exDb.next_name_id ≤ r.id →
      r.person_id = 1 ∧
      (lowerStr r.name) ∉ (lowerStr "ann") ::
        (exDb.names.filter (fun n2 => n2.person_id == 1)).map
          (fun n2 => (lowerStr n2.name)) ∧
      ∃ n ∈ exDb.names, n.person_id = 2 ∧ r.name = n.name)) :=
  ⟨by decide, by decide, by decide, by decide,
    c8_amended_name_merge exDb 1 2
      { id := 1, primary_name := "ann", notes := none, confidence := none,
        source_document_id := some 1, family_name := none, family_side := none }
      { id := 2, primary_name := "bob", notes := none, confidence := none,
        source_document_id := some 1, family_name := some "scheldt",
        family_side := some "maternal" }
      (by decide) (by decide) (by decide) (by decide)⟩

/-! ## C7: the per-(person, document, link-type) uniqueness invariant -/

/-- C7 counterexample: starting from the empty store (where the invariant
holds), calling `add_person_document_link` twice with identical arguments
inserts two rows with the same (person, document, link-type) triple: the
method performs no uniqueness check, so it does not preserve the invariant. -/
theorem c7_counterexample_duplicate_link_insert :
    linkTripleUnique exDb0 ∧
    ¬linkTripleUnique
        (add_person_document_link
          (add_person_document_link exDb0 1 1 "extracted_from" none)
          1 1 "extracted_from" none) := by
  decide

theorem pairwise_filterMap_preserve {α β : Type} (R : α → α → Prop)
    (S : β → β → Prop) (f : α → Option β) {l : List α}
    (h : ∀ a ∈ l, ∀ b ∈ l, R a b →
      ∀ a2, f a = some a2 → ∀ b2, f b = some b2 → S a2 b2)
    (hp : List.Pairwise R l) : List.Pairwise S (l.filterMap f) := by
  induction l with
  | nil => simp
  | cons x xs ih =>
    rw [List.filterMap_cons]
    rcases hp with _ | ⟨hx, hxs⟩
    have ih2 := ih
      (fun a ha b hb hr => h a (List.mem_cons_of_mem _ ha) b (List.mem_cons_of_mem _ hb) hr)
      hxs
    cases hfx : f x with
    | none => exact ih2
    | some y =>
      refine List.Pairwise.cons ?_ ih2
      intro b hb
      obtain ⟨a, ha, hfa⟩ := List.mem_filterMap.mp hb
      exact h x (List.mem_cons_self _ _) a (List.mem_cons_of_mem _ ha) (hx a ha)
        y hfx b hfa

theorem merge_preserves_linkTripleUnique (db : DB) (keep_id merge_id : Nat)
    (commitOk : Bool) (hu : linkTripleUnique db) :
    linkTripleUnique ((merge_people db keep_id merge_id commitOk).db) := by
  cases hk : find_person db keep_id with
  | none =>
    simp only [merge_people, hk]
    exact hu
  | some kp =>
    cases hm : find_person db merge_id with
    | none =>
      simp only [merge_people, hk, hm]
      exact hu
    | some mp =>
      cases commitOk with
      | false =>
        simp only [merge_people, hk, hm, Bool.false_eq_true, if_false]
        unfold linkTripleUnique
        rw [mergeNameLoop_person_documents]
        exact hu
      | true =>
        simp only [merge_people, hk, hm, if_true]
        unfold linkTripleUnique
        simp only [mergeNameLoop_person_documents]
        apply pairwise_filterMap_preserve _ _ _ ?_ hu
        intro a ha b hb hr a2 hfa b2 hfb
        obtain ⟨_, hadoc, halt, hacase⟩ := collapseLink_eq_some hfa
        obtain ⟨_, hbdoc, hblt, hbcase⟩ := collapseLink_eq_some hfb
        intro ⟨hpp, hdd, htt⟩
        rcases hacase with ⟨hap, hadocex, hapk⟩ | ⟨hap, haeq⟩ <;>
          rcases hbcase with ⟨hbp, hbdocex, hbpk⟩ | ⟨hbp, hbeq⟩
        · exact hr ⟨hap.trans hbp.symm, by rw [← hadoc, ← hbdoc, hdd],
            by rw [← halt, ← hblt, htt]⟩
        · by_cases hbk : b.person_id = keep_id
          · apply hadocex
            apply List.mem_map.mpr
            refine ⟨b, List.mem_filter.mpr ⟨hb, by simpa using hbk⟩, ?_⟩
            rw [← hbeq, ← hdd, hadoc]
          · exact hbk (by rw [← hbeq, ← hpp, hapk])
        · by_cases hak : a.person_id = keep_id
          · apply hbdocex
            apply List.mem_map.mpr
            refine ⟨a, List.mem_filter.mpr ⟨ha, by simpa using hak⟩, ?_⟩
            rw [← haeq, hdd, hbdoc]
          · exact hak (by rw [← haeq, hpp, hbpk])
        · refine hr ⟨?_, ?_, ?_⟩ <;> rw [← haeq, ← hbeq]
          · exact hpp
          · exact hdd
          · exact htt

theorem linkInv_of_eq {db1 db2 : DB}
    (hpd : db2.person_documents = db1.person_documents)
    (hnp : db1.next_person_id ≤ db2.next_person_id)
    (h : linkTripleUnique db1 ∧ linkPersonIdsBounded db1) :
    linkTripleUnique db2 ∧ linkPersonIdsBounded db2 := by
  unfold linkTripleUnique linkPersonIdsBounded at *
  rw [hpd]
  exact ⟨h.1, fun l hl => lt_of_lt_of_le (h.2 l hl) hnp⟩

theorem add_link_preserves_unique (db : DB) (p d : Nat) (t : String)
    (nt : Option String) (hu : linkTripleUnique db)
    (habs : ∀ l ∈ db.person_documents,
      ¬(l.person_id = p ∧ l.document_id = d ∧ l.link_type = t)) :
    linkTripleUnique (add_person_document_link db p d t nt) := by
  unfold linkTripleUnique add_person_document_link
  rw [List.pairwise_append]
  refine ⟨hu, List.pairwise_singleton _ _, ?_⟩
  intro a ha b hb
  simp only [List.mem_singleton] at hb
  subst hb
  exact habs a ha

theorem storeInv_link_fresh (db : DB) (p d : Nat) (t : String) (nt : Option String)
    (h : linkTripleUnique db ∧ linkPersonIdsBounded db)
    (hfresh : ∀ l ∈ db.person_documents, l.person_id < p)
    (hlt : p < db.next_person_id) :
    linkTripleUnique (add_person_document_link db p d t nt) ∧
      linkPersonIdsBounded (add_person_document_link db p d t nt) := by
  constructor
  · apply add_link_preserves_unique _ _ _ _ _ h.1
    intro l hl hcon
    exact Nat.ne_of_lt (hfresh l hl) hcon.1
  · intro l hl
    simp only [add_person_document_link, List.mem_append, List.mem_singleton] at hl
    rcases hl with hl | hl
    · exact h.2 l hl
    · subst hl
      exact hlt

theorem foldl_add_name_fields (l : List String) (pid : Nat) (db : DB) :
    (l.foldl (fun d v => add_name d pid v none none) db).person_documents =
        db.person_documents ∧
      (l.foldl (fun d v => add_name d pid v none none) db).next_person_id =
        db.next_person_id := by
  induction l generalizing db with
  | nil => exact ⟨rfl, rfl⟩
  | cons x xs ih =>
    simp only [List.foldl_cons]
    exact ih (add_name db pid x none none)

theorem storePersonStep_inv (document_id : Nat) (fn fs : Option String)
    (st : DB × NameMap) (pd : PersonExtraction)
    (h : linkTripleUnique st.1 ∧ linkPersonIdsBounded st.1) :
    linkTripleUnique (storePersonStep document_id fn fs st pd).1 ∧
      linkPersonIdsBounded (storePersonStep document_id fn fs st pd).1 := by
  unfold storePersonStep
  dsimp only
  have h1 : linkTripleUnique (add_person st.1 pd.primary_name pd.notes
        (some pd.confidence) (some document_id) fn fs).1 ∧
      linkPersonIdsBounded (add_person st.1 pd.primary_name pd.notes
        (some pd.confidence) (some document_id) fn fs).1 := by
    refine ⟨h.1, fun l hl => ?_⟩
    have := h.2 l hl
    show l.person_id < st.1.next_person_id + 1
    omega
  have h2 := storeInv_link_fresh
    (add_person st.1 pd.primary_name pd.notes (some pd.confidence)
      (some document_id) fn fs).1
    st.1.next_person_id document_id "extracted_from" none h1
    (fun l hl => h.2 l hl) (by exact Nat.lt_succ_self _)
  have hf := foldl_add_name_fields pd.name_variants
    (add_person st.1 pd.primary_name pd.notes (some pd.confidence)
      (some document_id) fn fs).2.id
    (add_person_document_link
      (add_person st.1 pd.primary_name pd.notes (some pd.confidence)
        (some document_id) fn fs).1
      (add_person st.1 pd.primary_name pd.notes (some pd.confidence)
        (some document_id) fn fs).2.id
      document_id "extracted_from" none)
  constructor
  · unfold linkTripleUnique
    rw [hf.1]
    exact h2.1
  · intro l hl
    rw [hf.1] at hl
    rw [hf.2]
    exact h2.2 l hl

theorem storeEventStep_inv (document_id : Nat) (fn fs : Option String)
    (st : DB × NameMap) (ed : EventExtraction)
    (h : linkTripleUnique st.1 ∧ linkPersonIdsBounded st.1) :
    linkTripleUnique (storeEventStep document_id fn fs st ed).1 ∧
      linkPersonIdsBounded (storeEventStep document_id fn fs st ed).1 := by
  unfold storeEventStep
  dsimp only
  cases idTruthy (mapGet st.2 ed.person_name) with
  | some pid => exact h
  | none =>
    cases get_person_by_name st.1 ed.person_name with
    | cons p ps => exact h
    | nil =>
      have h1 : linkTripleUnique (add_person st.1 ed.person_name none
            (some (7 / 10 : Rat)) (some document_id) fn fs).1 ∧
          linkPersonIdsBounded (add_person st.1 ed.person_name none
            (some (7 / 10 : Rat)) (some document_id) fn fs).1 := by
        refine ⟨h.1, fun l hl => ?_⟩
        have := h.2 l hl
        show l.person_id < st.1.next_person_id + 1
        omega
      have h2 := storeInv_link_fresh
        (add_person st.1 ed.person_name none (some (7 / 10 : Rat))
          (some document_id) fn fs).1
        st.1.next_person_id document_id "extracted_from" none h1
        (fun l hl => h.2 l hl) (by exact Nat.lt_succ_self _)
      exact h2

theorem resolveRelPerson_inv (document_id : Nat) (fn fs : Option String)
    (db : DB) (m : NameMap) (pname : String)
    (h : linkTripleUnique db ∧ linkPersonIdsBounded db) :
    linkTripleUnique (resolveRelPerson document_id fn fs db m pname).1 ∧
      linkPersonIdsBounded (resolveRelPerson document_id fn fs db m pname).1 := by
  unfold resolveRelPerson
  dsimp only
  cases idTruthy (mapGet m pname) with
  | some pid => exact h
  | none =>
    cases get_person_by_name db pname with
    | cons p ps => exact h
    | nil =>
      have h1 : linkTripleUnique (add_person db pname none (some (7 / 10 : Rat))
            (some document_id) fn fs).1 ∧
          linkPersonIdsBounded (add_person db pname none (some (7 / 10 : Rat))
            (some document_id) fn fs).1 := by
        refine ⟨h.1, fun l hl => ?_⟩
        have := h.2 l hl
        show l.person_id < db.next_person_id + 1
        omega
      exact storeInv_link_fresh
        (add_person db pname none (some (7 / 10 : Rat)) (some document_id) fn fs).1
        db.next_person_id document_id "extracted_from" none h1
        (fun l hl => h.2 l hl) (by exact Nat.lt_succ_self _)

theorem storeRelStep_inv (document_id : Nat) (fn fs : Option String)
    (st : DB × NameMap) (rd : RelationshipExtraction)
    (h : linkTripleUnique st.1 ∧ linkPersonIdsBounded st.1) :
    linkTripleUnique (storeRelStep document_id fn fs st rd).1 ∧
      linkPersonIdsBounded (storeRelStep document_id fn fs st rd).1 := by
  unfold storeRelStep
  dsimp only
  have h1 := resolveRelPerson_inv document_id fn fs st.1 st.2 rd.person1 h
  have h2 := resolveRelPerson_inv document_id fn fs
    (resolveRelPerson document_id fn fs st.1 st.2 rd.person1).1 st.2 rd.person2 h1
  exact h2

theorem foldl_preserves {σ α : Type} (f : σ → α → σ) (P : σ → Prop)
    (hstep : ∀ s a, P s → P (f s a)) (l : List α) (s : σ) (hs : P s) :
    P (l.foldl f s) := by
  induction l generalizing s with
  | nil => exact hs
  | cons x xs ih => exact ih _ (hstep s x hs)

theorem store_extraction_preserves_links (db : DB) (er : ExtractionResult)
    (document_id : Nat) (family_name family_side : Option String)
    (hu : linkTripleUnique db) (hb : linkPersonIdsBounded db) :
    linkTripleUnique (store_extraction db er document_id family_name family_side) := by
  unfold store_extraction
  have h1 := foldl_preserves (storePersonStep document_id family_name family_side)
    (fun st => linkTripleUnique st.1 ∧ linkPersonIdsBounded st.1)
    (fun st a h => storePersonStep_inv document_id family_name family_side st a h)
    er.people (db, ([] : NameMap)) ⟨hu, hb⟩
  have h2 := foldl_preserves (storeEventStep document_id family_name family_side)
    (fun st => linkTripleUnique st.1 ∧ linkPersonIdsBounded st.1)
    (fun st a h => storeEventStep_inv document_id family_name family_side st a h)
    er.events _ h1
  have h3 := foldl_preserves (storeRelStep document_id family_name family_side)
    (fun st => linkTripleUnique st.1 ∧ linkPersonIdsBounded st.1)
    (fun st a h => storeRelStep_inv document_id family_name family_side st a h)
    er.relationships _ h2
  exact h3.1

/-- C7 amended: `merge_people` always preserves the at-most-one-row-per
(person, document, link-type) invariant, and so does `store_extraction`
(under the id-allocation well-formedness every reachable state satisfies);
but `add_person_document_link` inserts unconditionally and preserves the
invariant only when no row with the same triple is already present (the
counterexample shows it violating the invariant otherwise). -/
theorem c7_amended_link_uniqueness (db : DB) :
    (∀ person_id document_id link_type notes, linkTripleUnique db →
      (∀ l ∈ db.person_documents,
        ¬(l.person_id = person_id ∧ l.document_id = document_id ∧
          l.link_type = link_type)) →
      linkTripleUnique
        (add_person_document_link db person_id document_id link_type notes)) ∧
    (∀ keep_id merge_id commitOk, linkTripleUnique db →
      linkTripleUnique ((merge_people db keep_id merge_id commitOk).db)) ∧
    (∀ er document_id family_name family_side,
      linkTripleUnique db → linkPersonIdsBounded db →
      linkTripleUnique (store_extraction db er document_id family_name family_side)) :=
  ⟨fun p d t nt hu habs => add_link_preserves_unique db p d t nt hu habs,
   fun k m c hu => merge_preserves_linkTripleUnique db k m c hu,
   fun er doc fn fs hu hb => store_extraction_preserves_links db er doc fn fs hu hb⟩

/-- Witness for C7 (amended) at a concrete state: the three operations
applied to `exDb2` (and a fresh-triple link insertion). -/
theorem c7_amended_link_uniqueness_witness :
    linkTripleUnique exDb2 ∧ linkPersonIdsBounded exDb2 ∧
    (∀ l ∈ exDb2.person_documents,
      ¬(l.person_id = 1 ∧ l.document_id = 9 ∧ l.link_type = "portrait_of")) ∧
    linkTripleUnique (add_person_document_link exDb2 1 9 "portrait_of" none) ∧
    linkTripleUnique ((merge_people exDb2 1 2 true).db) ∧
    linkTripleUnique (store_extraction exDb2 exEr 9 none none) :=
  ⟨by decide, by decide, by decide,
   (c7_amended_link_uniqueness exDb2).1 1 9 "portrait_of" none (by decide) (by decide),
   (c7_amended_link_uniqueness exDb2).2.1 1 2 true (by decide),
   (c7_amended_link_uniqueness exDb2).2.2 exEr 9 none none (by decide) (by decide)⟩

end GenDb
